import Mathlib

/-! # Task scheduler (`scheduler.c`): embedding and verification

The scheduler of `src/src_files/scheduler.c` keeps its pending tasks in a priority
queue ordered by the comparator `SortTasks` and runs them from `SchedulerRun`.

Conventions of the embedding

* `time_t` and `long` are 64-bit signed, `int` is 32-bit signed (LP64). A value of
  `time_t` is an `Int`; the two conversions of `TIME_TO_INT` are written out with
  `wrap_signed`.
* The collaborators whose sources are not part of `scheduler.c` (the priority queue,
  the task record, the identifier service) are modelled from the specification; each
  such definition says so in its doc comment.
* A pointer to a scheduler is never null here, so `assert(scheduler)` always passes;
  an operation is always callable, so `assert(operation_func)` always passes.
* `assert` is modelled by `c_assert`: with `NDEBUG` it is compiled out, otherwise a
  false condition aborts the call, which is the result `none`.
* Lines that do not compile are read in the only way that type-checks
  (`UIDGetBadUID` on line 108 is the call `UIDGetBadUID()`); lines that do compile are
  read as C defines them (`!SchedulerIsEmpty` on lines 106 and 199 negates the address
  of the function, which is never null).
* What the outside world decides during `SchedulerRun` (what an operation returns,
  whether an allocation succeeds, how much time passes) is a `world_ty` value.
-/

namespace Scheduler

/-! ## Machine integers -/

/-- Width of `long` and of `time_t`. -/
def LONG_BITS : Nat := 64

/-- Width of `int`. -/
def INT_BITS : Nat := 32

/-- Conversion of an integer to the signed type of `w` bits (two's complement). -/
def wrap_signed (w : Nat) (x : Int) : Int :=
  (x + 2 ^ (w - 1)) % 2 ^ w - 2 ^ (w - 1)

/-- Macro `TIME_TO_INT(time)`, that is `(int)(long)(time)` (line 21). -/
def TIME_TO_INT (time : Int) : Int :=
  wrap_signed INT_BITS (wrap_signed LONG_BITS time)

/-! ## Result codes -/

/-- Type `status_ty` of `utils.h`. -/
inductive status_ty where
  | SUCCESS
  | FAILURE
  deriving DecidableEq, Repr

/-- Type `oper_ret_ty`: what an operation reports (the three cases of the switch of
lines 143-163). -/
inductive oper_ret_ty where
  | NOT_DONE
  | DONE
  | FAILURE
  deriving DecidableEq, Repr

/-- Type `run_status_ty`: what `SchedulerRun` returns. -/
inductive run_status_ty where
  | FINISHED
  | STOPPED
  | SCH_FAILURE
  | FUNC_FAILURE
  deriving DecidableEq, Repr

/-! ## Identifier service -/

/-- Modelled from the spec: the identifier type of `UID.h`, which is not part of
`scheduler.c`. Identifiers are comparable values; a natural number stands for one. -/
abbrev ilrd_uid_ty := Nat

/-- Modelled from the spec: `UIDGetBadUID` of `UID.h`, the fixed sentinel
"invalid identifier". -/
def UIDGetBadUID : ilrd_uid_ty := 0

/-- Modelled from the spec: `UIDIsEqual` of `UID.h`, the equality test on
identifiers. -/
def UIDIsEqual (uid1 uid2 : ilrd_uid_ty) : Bool := decide (uid1 = uid2)

/-! ## Tasks -/

/-- Modelled from the spec: the task record of `task.h` (section 3 of the spec):
identifier, operation, interval, next due time and argument. The operation and the
argument are opaque values, named by numbers. -/
structure task_ty where
  uid : ilrd_uid_ty
  operation_func : Nat
  interval : Nat
  time_to_run : Int
  param : Nat
  deriving DecidableEq, Repr

/-- Modelled from the spec: `TaskCreate` of `task.h`. The identifier service hands over
`new_uid` (`none` when it or the allocation fails); a task is created only with an
identifier that is not the sentinel. -/
def TaskCreate (operation_func interval : Nat) (time_to_run : Int) (param : Nat)
    (new_uid : Option ilrd_uid_ty) : Option task_ty :=
  match new_uid with
  | none => none
  | some u =>
    if UIDIsEqual u UIDGetBadUID then none
    else some
      { uid := u, operation_func := operation_func, interval := interval,
        time_to_run := time_to_run, param := param }

/-- Modelled from the spec: accessor `TaskGetUid` of `task.h`. -/
def TaskGetUid (task : task_ty) : ilrd_uid_ty := task.uid

/-- Modelled from the spec: accessor `TaskGetTimeToRun` of `task.h`. -/
def TaskGetTimeToRun (task : task_ty) : Int := task.time_to_run

/-- Modelled from the spec: `TaskSetTimeToRun` of `task.h`; only the due time
changes. -/
def TaskSetTimeToRun (task : task_ty) (time_to_run : Int) : task_ty :=
  { task with time_to_run := time_to_run }

/-! ## Comparator and match function of `scheduler.c` -/

/-- Function `SortTasks` (lines 208-214): the difference of the two due times, computed
in `time_t` and narrowed by `TIME_TO_INT`. -/
def SortTasks (task1 task2 : task_ty) : Int :=
  let expected_time_task1 := TaskGetTimeToRun task1
  let expected_time_task2 := TaskGetTimeToRun task2
  TIME_TO_INT (wrap_signed LONG_BITS (expected_time_task1 - expected_time_task2))

/-- Function `MatchUIDs` (lines 218-224). -/
def MatchUIDs (task : task_ty) (uid : ilrd_uid_ty) : Bool :=
  let uid_of_task := TaskGetUid task
  let uid_to_find := uid
  UIDIsEqual uid_of_task uid_to_find

/-! ## Priority queue -/

/-- Modelled from the spec: the queue type of `pqueue.h`; the entries from the one
dequeued first to the one dequeued last. -/
abbrev p_queue_ty := List task_ty

/-- Modelled from the spec: where the comparator-driven queue of `pqueue.h` puts a
new entry: before the first entry that the comparator reports as later than the new
one (`cmp entry new > 0`), after every other entry. -/
def PqueueInsert (cmp : task_ty → task_ty → Int) (new_task : task_ty) :
    p_queue_ty → p_queue_ty
  | [] => [new_task]
  | entry :: rest =>
    if cmp entry new_task > 0 then new_task :: entry :: rest
    else entry :: PqueueInsert cmp new_task rest

/-- Modelled from the spec: `PqueueEnqueue` of `pqueue.h`, `insert(Queue, Item)`.
`alloc_ok` says whether the queue could allocate; on failure the queue is as before. -/
def PqueueEnqueue (cmp : task_ty → task_ty → Int) (queue : p_queue_ty)
    (new_task : task_ty) (alloc_ok : Bool) : status_ty × p_queue_ty :=
  if alloc_ok then (status_ty.SUCCESS, PqueueInsert cmp new_task queue)
  else (status_ty.FAILURE, queue)

/-- Modelled from the spec: `PqueueDequeue` of `pqueue.h`, `remove_min(Queue)`; it has
no result on an empty queue. -/
def PqueueDequeue : p_queue_ty → Option (task_ty × p_queue_ty)
  | [] => none
  | first :: rest => some (first, rest)

/-- Modelled from the spec: `PqueueErase` of `pqueue.h`,
`erase_if(Queue, predicate, context)`: removes and returns the first entry that the
predicate accepts, if there is one. -/
def PqueueErase (is_match : task_ty → ilrd_uid_ty → Bool) (uid : ilrd_uid_ty) :
    p_queue_ty → Option task_ty × p_queue_ty
  | [] => (none, [])
  | entry :: rest =>
    if is_match entry uid then (some entry, rest)
    else ((PqueueErase is_match uid rest).1, entry :: (PqueueErase is_match uid rest).2)

/-- Modelled from the spec: `PqueueSize` of `pqueue.h`. -/
def PqueueSize (queue : p_queue_ty) : Nat := queue.length

/-- Modelled from the spec: `PqueueIsEmpty` of `pqueue.h`. -/
def PqueueIsEmpty (queue : p_queue_ty) : Bool := queue.isEmpty

/-! ## The scheduler -/

/-- The record `struct scheduler` (lines 29-37). -/
structure scheduler_ty where
  tasks : p_queue_ty
  to_stop : Bool
  deriving DecidableEq, Repr

/-- Function `SchedulerCreate` (lines 41-61) when both allocations succeed. -/
def SchedulerCreate : scheduler_ty :=
  { tasks := [], to_stop := false }

/-- Function `SchedulerSize` (lines 183-188). -/
def SchedulerSize (scheduler : scheduler_ty) : Nat := PqueueSize scheduler.tasks

/-- Function `SchedulerIsEmpty` (lines 190-193). -/
def SchedulerIsEmpty (scheduler : scheduler_ty) : Bool := PqueueIsEmpty scheduler.tasks

/-- Function `SchedulerStop` (lines 176-181). -/
def SchedulerStop (scheduler : scheduler_ty) : scheduler_ty :=
  { scheduler with to_stop := true }

/-- Function `SchedulerAdd` (lines 80-99). `now` is the value of `CURRENT_TIME`,
`new_uid` what the identifier service delivers to `TaskCreate`, `alloc_ok` whether
`PqueueEnqueue` can allocate. The result is the returned identifier and the scheduler
afterwards. -/
def SchedulerAdd (scheduler : scheduler_ty) (operation_func interval param : Nat)
    (now : Int) (new_uid : Option ilrd_uid_ty) (alloc_ok : Bool) :
    ilrd_uid_ty × scheduler_ty :=
  match TaskCreate operation_func interval now param new_uid with
  | none => (UIDGetBadUID, scheduler)
  | some new_task =>
    match PqueueEnqueue SortTasks scheduler.tasks new_task alloc_ok with
    | (status_ty.SUCCESS, queue) => (TaskGetUid new_task, { scheduler with tasks := queue })
    | (status_ty.FAILURE, queue) => (UIDGetBadUID, { scheduler with tasks := queue })

/-- The macro `assert`: passes when compiled out (`NDEBUG`) or when the condition
holds. -/
def c_assert (NDEBUG : Bool) (condition : Bool) : Bool := NDEBUG || condition

/-- The address of a function, as a truth value: never null. -/
def function_address : Bool := true

/-- Lines 108-120 of `SchedulerRemove`, after the assertions. The first argument of
`UIDIsEqual` on line 108 is the sentinel, the value of the call `UIDGetBadUID()`. -/
def SchedulerRemove_body (scheduler : scheduler_ty) (uid : ilrd_uid_ty) :
    status_ty × scheduler_ty :=
  let uid_to_remove := uid
  if !UIDIsEqual UIDGetBadUID uid then
    match PqueueErase MatchUIDs uid_to_remove scheduler.tasks with
    | (some _, queue) => (status_ty.SUCCESS, { scheduler with tasks := queue })
    | (none, queue) => (status_ty.FAILURE, { scheduler with tasks := queue })
  else (status_ty.FAILURE, scheduler)

/-- Function `SchedulerRemove` (lines 101-121). Line 106 is `assert(!SchedulerIsEmpty)`:
the operand is the function itself, not a call of it, so the asserted value is the
negation of a non-null address. `none` is the abort of a failed assertion. -/
def SchedulerRemove (NDEBUG : Bool) (scheduler : scheduler_ty) (uid : ilrd_uid_ty) :
    Option (status_ty × scheduler_ty) :=
  if c_assert NDEBUG (!function_address) then some (SchedulerRemove_body scheduler uid)
  else none

/-! ## The run loop -/

/-- What the outside world decides in each iteration of the loop of `SchedulerRun`;
iterations are counted from 0. Time never runs backwards: every lag is a natural
number of seconds. -/
structure world_ty where
  /-- What the operation of the task run in the iteration returns. -/
  result : Nat → task_ty → oper_ret_ty
  /-- Whether `PqueueEnqueue` (line 147) can allocate in the iteration. -/
  alloc_ok : Nat → Bool
  /-- Seconds from the previous reading of the clock to the first test of line 136. -/
  lag_wait : Nat → Nat
  /-- Seconds by which the clock is past the due time when the sleep of line 138 is
  over and line 136 is tested again. -/
  lag_sleep : Nat → Nat
  /-- Seconds from the last test of line 136 to the reading of the clock after the
  operation has returned (line 146). -/
  lag_run : Nat → Nat

/-- One execution of an operation, as recorded in the trace of a run: the task as it
was dequeued, the clock when its operation was called, what the operation returned and
the tasks that were left in the queue at that moment. -/
structure exec_ty where
  task : task_ty
  clock : Int
  ret : oper_ret_ty
  rest : p_queue_ty
  deriving DecidableEq, Repr

/-- State of `SchedulerRun` between two iterations: the scheduler, the last reading of
the clock, the number of iterations done and the executions so far. -/
structure run_state where
  sched : scheduler_ty
  now : Int
  iter : Nat
  trace : List exec_ty
  deriving DecidableEq, Repr

/-- How an iteration ends: the loop goes on, or `SchedulerRun` returns. -/
inductive step_ty where
  | next (st : run_state)
  | ret (status : run_status_ty) (st : run_state)
  deriving DecidableEq, Repr

/-- Lines 136-139: the clock when the wait loop is left. The loop is left at the first
test that reads a clock value not before the due time: at the first test of all, after
`lag_wait` seconds, when the task is due by then; otherwise after the sleep, `lag_sleep`
seconds past the due time. Every value at which the loop can be left, one that is neither
before the due time nor before the previous reading, is of one of these two forms. -/
def wait_until_due (w : world_ty) (st : run_state) (task_to_run : task_ty) : Int :=
  if TaskGetTimeToRun task_to_run > st.now + w.lag_wait st.iter then
    TaskGetTimeToRun task_to_run + w.lag_sleep st.iter
  else st.now + w.lag_wait st.iter

/-- Lines 136-163: the body of the loop of `SchedulerRun`, for the dequeued task and the
queue that is left. -/
def SchedulerRun_body (w : world_ty) (st : run_state) (task_to_run : task_ty)
    (rest : p_queue_ty) : step_ty :=
  let called := wait_until_due w st task_to_run
  let ret_status := w.result st.iter task_to_run
  let after := called + w.lag_run st.iter
  let trace := st.trace ++
    [{ task := task_to_run, clock := called, ret := ret_status, rest := rest }]
  match ret_status with
  | oper_ret_ty.NOT_DONE =>
    match PqueueEnqueue SortTasks rest (TaskSetTimeToRun task_to_run after)
        (w.alloc_ok st.iter) with
    | (status_ty.SUCCESS, queue) =>
      step_ty.next
        { sched := { st.sched with tasks := queue }, now := after, iter := st.iter + 1,
          trace := trace }
    | (status_ty.FAILURE, queue) =>
      step_ty.ret run_status_ty.SCH_FAILURE
        { sched := { st.sched with tasks := queue }, now := after, iter := st.iter + 1,
          trace := trace }
  | oper_ret_ty.DONE =>
    step_ty.next
      { sched := { st.sched with tasks := rest }, now := after, iter := st.iter + 1,
        trace := trace }
  | oper_ret_ty.FAILURE =>
    step_ty.ret run_status_ty.FUNC_FAILURE
      { sched := { st.sched with tasks := rest }, now := after, iter := st.iter + 1,
        trace := trace }

/-- Line 130: the condition of the loop of `SchedulerRun`. -/
def SchedulerRun_cond (st : run_state) : Bool :=
  !SchedulerIsEmpty st.sched && st.sched.to_stop == false

/-- Lines 166-173: the status returned when the loop is left by its condition. -/
def SchedulerRun_exit (st : run_state) : run_status_ty :=
  if SchedulerIsEmpty st.sched then run_status_ty.FINISHED else run_status_ty.STOPPED

/-- Lines 130-173: the loop of `SchedulerRun`, for at most `fuel` iterations; `none` when
the loop would go on after them. -/
def SchedulerRun_loop (w : world_ty) : Nat → run_state →
    Option (run_status_ty × run_state)
  | 0, st => if SchedulerRun_cond st then none else some (SchedulerRun_exit st, st)
  | fuel + 1, st =>
    if SchedulerRun_cond st then
      match PqueueDequeue st.sched.tasks with
      | none => none
      | some (task_to_run, rest) =>
        match SchedulerRun_body w st task_to_run rest with
        | step_ty.next st1 => SchedulerRun_loop w fuel st1
        | step_ty.ret status st1 => some (status, st1)
    else some (SchedulerRun_exit st, st)

/-- Function `SchedulerRun` (lines 123-174), called when the clock reads `now`. -/
def SchedulerRun (w : world_ty) (fuel : Nat) (scheduler : scheduler_ty) (now : Int) :
    Option (run_status_ty × run_state) :=
  SchedulerRun_loop w fuel { sched := scheduler, now := now, iter := 0, trace := [] }

/-- The due times of the executed tasks, in the order of execution. -/
def executed_due (trace : List exec_ty) : List Int :=
  trace.map (fun e => TaskGetTimeToRun e.task)

/-- The executed tasks, in the order of execution. -/
def executed_tasks (trace : List exec_ty) : List task_ty :=
  trace.map (fun e => e.task)

/-- The identifiers of the pending tasks. -/
def pending_uids (scheduler : scheduler_ty) : List ilrd_uid_ty :=
  scheduler.tasks.map TaskGetUid

/-! ## Records, predicates and concrete inputs used in the statements -/

/-- The record of an execution, as `SchedulerRun_body` appends it to the trace. -/
def exec_of (w : world_ty) (st : run_state) (task : task_ty) (rest : p_queue_ty) : exec_ty :=
  { task := task, clock := wait_until_due w st task, ret := w.result st.iter task, rest := rest }

/-- A world in which every operation returns DONE, every allocation succeeds and no
time passes. -/
def w_done : world_ty :=
  { result := fun _ _ => oper_ret_ty.DONE, alloc_ok := fun _ => true,
    lag_wait := fun _ => 0, lag_sleep := fun _ => 0, lag_run := fun _ => 0 }

/-- A task with the given identifier and due time, operation 0, interval 0, argument 0. -/
def task_at (uid : ilrd_uid_ty) (due : Int) : task_ty :=
  { uid := uid, operation_func := 0, interval := 0, time_to_run := due, param := 0 }

/-- A scheduler with three tasks due at 100, 101 and 102, not stopped. -/
def s_three : scheduler_ty :=
  { tasks := [task_at 1 100, task_at 2 101, task_at 3 102], to_stop := false }

/-- Number of executions in a trace that returned DONE. -/
def done_count (trace : List exec_ty) : Nat :=
  (trace.filter (fun e => decide (e.ret = oper_ret_ty.DONE))).length

/-- A scheduler without tasks whose stop flag is set. -/
def s_empty_stopped : scheduler_ty := { tasks := [], to_stop := true }

/-- The queue is in ascending order of due time. -/
def due_sorted (queue : p_queue_ty) : Prop :=
  List.Pairwise (fun a b => TaskGetTimeToRun a ≤ TaskGetTimeToRun b) queue

/-- Every due time of the queue lies in the window of `2 ^ 31` seconds that starts at
`lo`. -/
def due_in_window (lo : Int) (queue : p_queue_ty) : Prop :=
  ∀ t ∈ queue, lo ≤ TaskGetTimeToRun t ∧ TaskGetTimeToRun t < lo + 2 ^ 31

instance (queue : p_queue_ty) : Decidable (due_sorted queue) :=
  inferInstanceAs
    (Decidable (List.Pairwise (fun a b => TaskGetTimeToRun a ≤ TaskGetTimeToRun b) queue))

instance (lo : Int) (queue : p_queue_ty) : Decidable (due_in_window lo queue) :=
  inferInstanceAs
    (Decidable (∀ t ∈ queue, lo ≤ TaskGetTimeToRun t ∧ TaskGetTimeToRun t < lo + 2 ^ 31))

/-- A world in which the operation of the task with identifier 2 returns FAILURE and
every other operation returns DONE. -/
def w_second_fails : world_ty :=
  { result := fun _ t => if t.uid = 2 then oper_ret_ty.FAILURE else oper_ret_ty.DONE,
    alloc_ok := fun _ => true, lag_wait := fun _ => 0, lag_sleep := fun _ => 0,
    lag_run := fun _ => 0 }

/-- A world in which the operation run in iteration 0 returns NOT_DONE and every later
one DONE; one second passes before the wait loop, two during an operation. -/
def w_retry : world_ty :=
  { result := fun n _ => if n = 0 then oper_ret_ty.NOT_DONE else oper_ret_ty.DONE,
    alloc_ok := fun _ => true, lag_wait := fun _ => 1, lag_sleep := fun _ => 0,
    lag_run := fun _ => 2 }

/-- A scheduler with two tasks due at 100 and 101, not stopped. -/
def s_two : scheduler_ty :=
  { tasks := [task_at 1 100, task_at 2 101], to_stop := false }

/-- The scheduler after `SchedulerCreate`, a `SchedulerAdd` when the clock reads
1000000000 and a second `SchedulerAdd` when it reads 4221225472, which is
`3 * 2 ^ 30` seconds later. -/
def s_far : scheduler_ty :=
  (SchedulerAdd (SchedulerAdd SchedulerCreate 7 0 0 1000000000 (some 1) true).2
    7 0 0 4221225472 (some 2) true).2

/-- A state of the loop in which the task with identifier 2 is the next to run. -/
def st_failing : run_state :=
  { sched := { tasks := [task_at 2 101, task_at 3 102], to_stop := false }, now := 100,
    iter := 1, trace := [] }

/-- The record of the execution of the task with identifier 2 in `s_three`. -/
def e_failing : exec_ty :=
  { task := task_at 2 101, clock := 101, ret := oper_ret_ty.FAILURE, rest := [task_at 3 102] }

/-- The record of the execution of the task with identifier 1 in `s_three`. -/
def e_completed : exec_ty :=
  { task := task_at 1 100, clock := 100, ret := oper_ret_ty.DONE,
    rest := [task_at 2 101, task_at 3 102] }

/-- The state in which `SchedulerRun w_second_fails` leaves `s_three`. -/
def st_three_failed : run_state :=
  { sched := { tasks := [task_at 3 102], to_stop := false }, now := 101, iter := 2,
    trace := [e_completed, e_failing] }

/-- A task with interval 5, due at 100. -/
def t_retry : task_ty :=
  { uid := 1, operation_func := 3, interval := 5, time_to_run := 100, param := 8 }

/-- A state of the loop in which `t_retry` is the next to run. -/
def st_retry : run_state :=
  { sched := { tasks := [t_retry, task_at 2 101], to_stop := false }, now := 100, iter := 0,
    trace := [] }

/-! ## The remaining functions, runs cut short and sequences of calls -/

/-- Function `SchedulerClear` (lines 195-204), for at most `fuel` iterations of its loop;
`none` when the loop would go on after them or dequeues from an empty queue. The
condition of line 199 is `!SchedulerIsEmpty`: the operand is the function itself, not a
call of it, so the tested value is the negation of a non-null address. The body of the
loop destroys the task at the head (storage only, nothing to record here) and dequeues
it. -/
def SchedulerClear : Nat → scheduler_ty → Option scheduler_ty
  | 0, scheduler => if !function_address then none else some scheduler
  | fuel + 1, scheduler =>
    if !function_address then
      match PqueueDequeue scheduler.tasks with
      | none => none
      | some (_, rest) => SchedulerClear fuel { scheduler with tasks := rest }
    else some scheduler

/-- The state in which an iteration of the loop of `SchedulerRun` ends. -/
def step_state : step_ty → run_state
  | step_ty.next st => st
  | step_ty.ret _ st => st

/-- The state of `SchedulerRun` after at most `n` iterations of its loop: the state in
which the loop is left when that happens within `n` iterations, the state after the
`n`-th iteration otherwise. -/
def SchedulerRun_upto (w : world_ty) : Nat → run_state → run_state
  | 0, st => st
  | n + 1, st =>
    if SchedulerRun_cond st then
      match PqueueDequeue st.sched.tasks with
      | none => st
      | some (task_to_run, rest) =>
        match SchedulerRun_body w st task_to_run rest with
        | step_ty.next st1 => SchedulerRun_upto w n st1
        | step_ty.ret _ st1 => st1
    else st

/-- The state in which `SchedulerRun` starts. -/
def run_start (scheduler : scheduler_ty) (now : Int) : run_state :=
  { sched := scheduler, now := now, iter := 0, trace := [] }

/-- Number of executions in a trace that returned NOT_DONE. -/
def not_done_count (trace : List exec_ty) : Nat :=
  (trace.filter (fun e => decide (e.ret = oper_ret_ty.NOT_DONE))).length

/-- The invariant on identifiers: no two pending tasks have the same identifier and no
pending task has the sentinel identifier. -/
def uid_invariant (scheduler : scheduler_ty) : Prop :=
  (pending_uids scheduler).Nodup ∧ UIDGetBadUID ∉ pending_uids scheduler

instance (scheduler : scheduler_ty) : Decidable (uid_invariant scheduler) :=
  inferInstanceAs
    (Decidable ((pending_uids scheduler).Nodup ∧ UIDGetBadUID ∉ pending_uids scheduler))

/-- A call of one of the functions of the scheduler that change it, with what the
outside world decides during the call. -/
inductive call_ty where
  | add (operation_func interval param : Nat) (now : Int) (new_uid : Option ilrd_uid_ty)
      (alloc_ok : Bool)
  | remove (NDEBUG : Bool) (uid : ilrd_uid_ty)
  | run (w : world_ty) (fuel : Nat) (now : Int)
  | stop
  | clear (fuel : Nat)

/-- The scheduler after a call; `none` when the call does not return. -/
def call_result (call : call_ty) (scheduler : scheduler_ty) : Option scheduler_ty :=
  match call with
  | call_ty.add operation_func interval param now new_uid alloc_ok =>
    some (SchedulerAdd scheduler operation_func interval param now new_uid alloc_ok).2
  | call_ty.remove NDEBUG uid => (SchedulerRemove NDEBUG scheduler uid).map (fun r => r.2)
  | call_ty.run w fuel now => (SchedulerRun w fuel scheduler now).map (fun r => r.2.sched)
  | call_ty.stop => some (SchedulerStop scheduler)
  | call_ty.clear fuel => SchedulerClear fuel scheduler

/-- The scheduler after a sequence of calls; `none` when one of them does not return. -/
def calls_result : List call_ty → scheduler_ty → Option scheduler_ty
  | [], scheduler => some scheduler
  | call :: calls, scheduler =>
    match call_result call scheduler with
    | none => none
    | some after => calls_result calls after

/-- A world in which every operation returns NOT_DONE and `PqueueEnqueue` can allocate
in the first two iterations only; one second passes before the wait loop, two during an
operation. -/
def w_always_retry : world_ty :=
  { result := fun _ _ => oper_ret_ty.NOT_DONE, alloc_ok := fun n => decide (n < 2),
    lag_wait := fun _ => 1, lag_sleep := fun _ => 0, lag_run := fun _ => 2 }

/-- A state of the loop in which the reinsertion of the next task fails in
`w_always_retry`. -/
def st_dropping : run_state :=
  { sched := { tasks := [task_at 1 102, task_at 2 105], to_stop := false }, now := 105,
    iter := 2, trace := [] }

/-- The record of the third execution of the run of `s_two` in `w_always_retry`. -/
def e_dropped : exec_ty :=
  { task := task_at 1 102, clock := 106, ret := oper_ret_ty.NOT_DONE,
    rest := [task_at 2 105] }

/-- The state in which `SchedulerRun w_always_retry`, called at 50, leaves `s_two`. -/
def st_two_dropped : run_state :=
  { sched := { tasks := [task_at 2 105], to_stop := false }, now := 108, iter := 3,
    trace :=
      [{ task := task_at 1 100, clock := 100, ret := oper_ret_ty.NOT_DONE,
         rest := [task_at 2 101] },
       { task := task_at 2 101, clock := 103, ret := oper_ret_ty.NOT_DONE,
         rest := [task_at 1 102] },
       e_dropped] }

/-- A task with identifier 4, operation 9, interval 5 and argument 8, due at 200. -/
def t_fourth : task_ty :=
  { uid := 4, operation_func := 9, interval := 5, time_to_run := 200, param := 8 }

/-! # Theorems -/

/-! ## Queue operations -/

theorem PqueueInsert_length (cmp : task_ty → task_ty → Int) (x : task_ty) (q : p_queue_ty) :
    (PqueueInsert cmp x q).length = q.length + 1 := by
  induction q with
  | nil => rfl
  | cons y q ih =>
    unfold PqueueInsert
    split
    · rfl
    · simp [ih]

theorem PqueueInsert_perm (cmp : task_ty → task_ty → Int) (x : task_ty) (q : p_queue_ty) :
    List.Perm (PqueueInsert cmp x q) (x :: q) := by
  induction q with
  | nil => exact List.Perm.refl _
  | cons y q ih =>
    unfold PqueueInsert
    split
    · exact List.Perm.refl _
    · exact (List.Perm.cons y ih).trans (List.Perm.swap x y q)

theorem PqueueInsert_mem (cmp : task_ty → task_ty → Int) (x y : task_ty) (q : p_queue_ty) :
    y ∈ PqueueInsert cmp x q ↔ y = x ∨ y ∈ q := by
  rw [(PqueueInsert_perm cmp x q).mem_iff, List.mem_cons]

theorem PqueueErase_no_match (uid : ilrd_uid_ty) :
    ∀ q : p_queue_ty, (∀ t ∈ q, TaskGetUid t ≠ uid) →
      PqueueErase MatchUIDs uid q = (none, q) := by
  intro q
  induction q with
  | nil => intro _; rfl
  | cons y q ih =>
    intro h
    have hy : MatchUIDs y uid = false := by
      simpa [MatchUIDs, UIDIsEqual] using h y (List.mem_cons_self _ _)
    have hq := ih (fun t ht => h t (List.mem_cons_of_mem _ ht))
    simp [PqueueErase, hy, hq]

theorem PqueueErase_match (uid : ilrd_uid_ty) :
    ∀ q : p_queue_ty, (∃ t ∈ q, TaskGetUid t = uid) →
      ∃ l1 t l2, q = l1 ++ t :: l2 ∧ TaskGetUid t = uid ∧
        (∀ x ∈ l1, TaskGetUid x ≠ uid) ∧
        PqueueErase MatchUIDs uid q = (some t, l1 ++ l2) := by
  intro q
  induction q with
  | nil => intro h; simp at h
  | cons y q ih =>
    intro h
    by_cases hy : TaskGetUid y = uid
    · refine ⟨[], y, q, rfl, hy, by simp, ?_⟩
      simp [PqueueErase, MatchUIDs, UIDIsEqual, hy]
    · have hq : ∃ t ∈ q, TaskGetUid t = uid := by
        obtain ⟨t, ht, htu⟩ := h
        rcases List.mem_cons.mp ht with h1 | h1
        · rw [h1] at htu; exact absurd htu hy
        · exact ⟨t, h1, htu⟩
      obtain ⟨l1, t, l2, h1, h2, h3, h4⟩ := ih hq
      refine ⟨y :: l1, t, l2, by simp [h1], h2, ?_, ?_⟩
      · intro x hx
        rcases List.mem_cons.mp hx with hx | hx
        · rw [hx]; exact hy
        · exact h3 x hx
      · have hm : MatchUIDs y uid = false := by simpa [MatchUIDs, UIDIsEqual] using hy
        simp [PqueueErase, hm, h4]

theorem PqueueErase_insert (cmp : task_ty → task_ty → Int) (new_task : task_ty) :
    ∀ q : p_queue_ty, (∀ t ∈ q, TaskGetUid t ≠ TaskGetUid new_task) →
      PqueueErase MatchUIDs (TaskGetUid new_task) (PqueueInsert cmp new_task q) =
        (some new_task, q) := by
  intro q
  induction q with
  | nil => intro _; simp [PqueueInsert, PqueueErase, MatchUIDs, UIDIsEqual]
  | cons y q ih =>
    intro h
    have hy : TaskGetUid y ≠ TaskGetUid new_task := h y (List.mem_cons_self _ _)
    have hq := ih (fun t ht => h t (List.mem_cons_of_mem _ ht))
    unfold PqueueInsert
    split
    · simp [PqueueErase, MatchUIDs, UIDIsEqual]
    · have hm : MatchUIDs y (TaskGetUid new_task) = false := by
        simpa [MatchUIDs, UIDIsEqual] using hy
      simp [PqueueErase, hm, hq]


/-! ## Unfolding the loop of `SchedulerRun` -/

theorem SchedulerRun_cond_eq (st : run_state) :
    SchedulerRun_cond st = true ↔ st.sched.tasks ≠ [] ∧ st.sched.to_stop = false := by
  cases h : st.sched.tasks <;> cases h2 : st.sched.to_stop <;>
    simp [SchedulerRun_cond, SchedulerIsEmpty, PqueueIsEmpty, h, h2]

theorem SchedulerRun_loop_exit (w : world_ty) (fuel : Nat) (st : run_state)
    (h : SchedulerRun_cond st = false) :
    SchedulerRun_loop w fuel st = some (SchedulerRun_exit st, st) := by
  cases fuel <;> simp [SchedulerRun_loop, h]

theorem SchedulerRun_loop_step (w : world_ty) (fuel : Nat) (st : run_state)
    (task : task_ty) (rest : p_queue_ty) (hq : st.sched.tasks = task :: rest)
    (hs : st.sched.to_stop = false) :
    SchedulerRun_loop w (fuel + 1) st =
      match SchedulerRun_body w st task rest with
      | step_ty.next st1 => SchedulerRun_loop w fuel st1
      | step_ty.ret status st1 => some (status, st1) := by
  have hc : SchedulerRun_cond st = true := by
    rw [SchedulerRun_cond_eq]; simp [hq, hs]
  simp [SchedulerRun_loop, hc, hq, PqueueDequeue]

theorem SchedulerRun_body_done (w : world_ty) (st : run_state) (task : task_ty)
    (rest : p_queue_ty) (h : w.result st.iter task = oper_ret_ty.DONE) :
    SchedulerRun_body w st task rest =
      step_ty.next
        { sched := { st.sched with tasks := rest },
          now := wait_until_due w st task + w.lag_run st.iter, iter := st.iter + 1,
          trace := st.trace ++ [exec_of w st task rest] } := by
  simp [SchedulerRun_body, exec_of, h]

theorem SchedulerRun_body_failure (w : world_ty) (st : run_state) (task : task_ty)
    (rest : p_queue_ty) (h : w.result st.iter task = oper_ret_ty.FAILURE) :
    SchedulerRun_body w st task rest =
      step_ty.ret run_status_ty.FUNC_FAILURE
        { sched := { st.sched with tasks := rest },
          now := wait_until_due w st task + w.lag_run st.iter, iter := st.iter + 1,
          trace := st.trace ++ [exec_of w st task rest] } := by
  simp [SchedulerRun_body, exec_of, h]

theorem SchedulerRun_body_not_done_ok (w : world_ty) (st : run_state) (task : task_ty)
    (rest : p_queue_ty) (h : w.result st.iter task = oper_ret_ty.NOT_DONE)
    (ha : w.alloc_ok st.iter = true) :
    SchedulerRun_body w st task rest =
      step_ty.next
        { sched := { st.sched with
            tasks := PqueueInsert SortTasks
              (TaskSetTimeToRun task (wait_until_due w st task + w.lag_run st.iter)) rest },
          now := wait_until_due w st task + w.lag_run st.iter, iter := st.iter + 1,
          trace := st.trace ++ [exec_of w st task rest] } := by
  simp [SchedulerRun_body, exec_of, h, ha, PqueueEnqueue]

theorem SchedulerRun_body_not_done_fail (w : world_ty) (st : run_state) (task : task_ty)
    (rest : p_queue_ty) (h : w.result st.iter task = oper_ret_ty.NOT_DONE)
    (ha : w.alloc_ok st.iter = false) :
    SchedulerRun_body w st task rest =
      step_ty.ret run_status_ty.SCH_FAILURE
        { sched := { st.sched with tasks := rest },
          now := wait_until_due w st task + w.lag_run st.iter, iter := st.iter + 1,
          trace := st.trace ++ [exec_of w st task rest] } := by
  simp [SchedulerRun_body, exec_of, h, ha, PqueueEnqueue]


/-! ## The comparator inside a window of `2 ^ 31` seconds -/

theorem wrap_signed_long (x : Int) (h1 : -(2 ^ 63) ≤ x) (h2 : x < 2 ^ 63) :
    wrap_signed LONG_BITS x = x := by
  unfold wrap_signed LONG_BITS
  norm_num
  rw [Int.emod_eq_of_lt (by omega) (by omega)]
  omega

theorem wrap_signed_int (x : Int) (h1 : -(2 ^ 31) ≤ x) (h2 : x < 2 ^ 31) :
    wrap_signed INT_BITS x = x := by
  unfold wrap_signed INT_BITS
  norm_num
  rw [Int.emod_eq_of_lt (by omega) (by omega)]
  omega

theorem SortTasks_in_window (lo : Int) (task1 task2 : task_ty)
    (h1 : lo ≤ TaskGetTimeToRun task1 ∧ TaskGetTimeToRun task1 < lo + 2 ^ 31)
    (h2 : lo ≤ TaskGetTimeToRun task2 ∧ TaskGetTimeToRun task2 < lo + 2 ^ 31) :
    SortTasks task1 task2 = TaskGetTimeToRun task1 - TaskGetTimeToRun task2 := by
  unfold SortTasks TIME_TO_INT
  simp only []
  have a : -(2 ^ 31 : Int) ≤ TaskGetTimeToRun task1 - TaskGetTimeToRun task2 := by omega
  have b : TaskGetTimeToRun task1 - TaskGetTimeToRun task2 < (2 ^ 31 : Int) := by omega
  have c := wrap_signed_long (TaskGetTimeToRun task1 - TaskGetTimeToRun task2)
    (by omega) (by omega)
  rw [c, c, wrap_signed_int _ a b]

theorem PqueueInsert_due_sorted (lo : Int) (new_task : task_ty)
    (hn : lo ≤ TaskGetTimeToRun new_task ∧ TaskGetTimeToRun new_task < lo + 2 ^ 31) :
    ∀ q : p_queue_ty, due_sorted q → due_in_window lo q →
      due_sorted (PqueueInsert SortTasks new_task q) := by
  intro q
  induction q with
  | nil => intro _ _; simp [PqueueInsert, due_sorted]
  | cons y q ih =>
    intro hs hw
    have hy := hw y (List.mem_cons_self _ _)
    have hwq : due_in_window lo q := fun t ht => hw t (List.mem_cons_of_mem _ ht)
    unfold due_sorted at hs
    rw [List.pairwise_cons] at hs
    unfold PqueueInsert
    rw [SortTasks_in_window lo y new_task hy hn]
    split
    · rename_i hlt
      unfold due_sorted
      rw [List.pairwise_cons, List.pairwise_cons]
      refine ⟨?_, hs.1, hs.2⟩
      intro t ht
      rcases List.mem_cons.mp ht with h | h
      · rw [h]; omega
      · have := hs.1 t h; omega
    · rename_i hge
      unfold due_sorted
      rw [List.pairwise_cons]
      refine ⟨?_, ih hs.2 hwq⟩
      intro t ht
      rcases (PqueueInsert_mem _ _ _ _).mp ht with h | h
      · rw [h]; omega
      · exact hs.1 t h

theorem wait_until_due_ge_due (w : world_ty) (st : run_state) (task : task_ty) :
    TaskGetTimeToRun task ≤ wait_until_due w st task := by
  unfold wait_until_due
  split <;> omega

theorem wait_until_due_ge_now (w : world_ty) (st : run_state) (task : task_ty) :
    st.now ≤ wait_until_due w st task := by
  unfold wait_until_due
  split <;> omega

theorem SchedulerRun_loop_now_mono (w : world_ty) :
    ∀ (fuel : Nat) (st : run_state) (status : run_status_ty) (st1 : run_state),
      SchedulerRun_loop w fuel st = some (status, st1) → st.now ≤ st1.now := by
  intro fuel
  induction fuel with
  | zero =>
    intro st status st1 h
    cases hc : SchedulerRun_cond st with
    | true => simp [SchedulerRun_loop, hc] at h
    | false =>
      rw [SchedulerRun_loop_exit w 0 st hc] at h
      simp only [Option.some.injEq, Prod.mk.injEq] at h
      rw [← h.2]
  | succ fuel ih =>
    intro st status st1 h
    cases hc : SchedulerRun_cond st with
    | false =>
      rw [SchedulerRun_loop_exit w _ st hc] at h
      simp only [Option.some.injEq, Prod.mk.injEq] at h
      rw [← h.2]
    | true =>
      obtain ⟨hne, hs⟩ := (SchedulerRun_cond_eq st).mp hc
      have hw := wait_until_due_ge_now w st
      cases hq : st.sched.tasks with
      | nil => exact absurd hq hne
      | cons t q =>
        rw [SchedulerRun_loop_step w fuel st t q hq hs] at h
        cases hr : w.result st.iter t with
        | DONE =>
          rw [SchedulerRun_body_done w st t q hr] at h
          have := ih _ _ _ h
          have := hw t
          simp only at *
          omega
        | FAILURE =>
          rw [SchedulerRun_body_failure w st t q hr] at h
          simp only [Option.some.injEq, Prod.mk.injEq] at h
          rw [← h.2]
          have := hw t
          simp only
          omega
        | NOT_DONE =>
          cases ha : w.alloc_ok st.iter with
          | true =>
            rw [SchedulerRun_body_not_done_ok w st t q hr ha] at h
            have := ih _ _ _ h
            have := hw t
            simp only at *
            omega
          | false =>
            rw [SchedulerRun_body_not_done_fail w st t q hr ha] at h
            simp only [Option.some.injEq, Prod.mk.injEq] at h
            rw [← h.2]
            have := hw t
            simp only
            omega

theorem SchedulerRun_loop_order (w : world_ty) (lo : Int) :
    ∀ (fuel : Nat) (st : run_state) (status : run_status_ty) (st1 : run_state),
      SchedulerRun_loop w fuel st = some (status, st1) →
      due_sorted st.sched.tasks → due_in_window lo st.sched.tasks →
      st1.now < lo + 2 ^ 31 →
      ∃ d, st1.trace = st.trace ++ d ∧
        List.Pairwise (fun a b : Int => a ≤ b) (executed_due d) ∧
        ∀ m : Int, (∀ t ∈ st.sched.tasks, m ≤ TaskGetTimeToRun t) →
          ∀ x ∈ executed_due d, m ≤ x := by
  intro fuel
  induction fuel with
  | zero =>
    intro st status st1 h _ _ _
    cases hc : SchedulerRun_cond st with
    | true => simp [SchedulerRun_loop, hc] at h
    | false =>
      rw [SchedulerRun_loop_exit w 0 st hc] at h
      simp only [Option.some.injEq, Prod.mk.injEq] at h
      exact ⟨[], by simp [← h.2], by simp [executed_due], by simp [executed_due]⟩
  | succ fuel ih =>
    intro st status st1 h hsort hwin hclock
    cases hc : SchedulerRun_cond st with
    | false =>
      rw [SchedulerRun_loop_exit w _ st hc] at h
      simp only [Option.some.injEq, Prod.mk.injEq] at h
      exact ⟨[], by simp [← h.2], by simp [executed_due], by simp [executed_due]⟩
    | true =>
      obtain ⟨hne, hs⟩ := (SchedulerRun_cond_eq st).mp hc
      cases hq : st.sched.tasks with
      | nil => exact absurd hq hne
      | cons t q =>
        rw [hq] at hsort hwin
        unfold due_sorted at hsort
        rw [List.pairwise_cons] at hsort
        have ht := hwin t (List.mem_cons_self _ _)
        have hwq : due_in_window lo q := fun x hx => hwin x (List.mem_cons_of_mem _ hx)
        have hcalled := wait_until_due_ge_due w st t
        rw [SchedulerRun_loop_step w fuel st t q hq hs] at h
        have single : ∃ d, st.trace ++ [exec_of w st t q] = st.trace ++ d ∧
            List.Pairwise (fun a b : Int => a ≤ b) (executed_due d) ∧
            ∀ m : Int, (∀ x ∈ t :: q, m ≤ TaskGetTimeToRun x) →
              ∀ x ∈ executed_due d, m ≤ x := by
          refine ⟨[exec_of w st t q], rfl, by simp [executed_due], ?_⟩
          intro m hm x hx
          simp only [executed_due, exec_of, List.map_cons, List.map_nil,
            List.mem_singleton] at hx
          rw [hx]
          exact hm t (List.mem_cons_self _ _)
        have cont : ∀ st2 : run_state, st2.trace = st.trace ++ [exec_of w st t q] →
            due_sorted st2.sched.tasks → due_in_window lo st2.sched.tasks →
            (∀ x ∈ st2.sched.tasks, TaskGetTimeToRun t ≤ TaskGetTimeToRun x) →
            SchedulerRun_loop w fuel st2 = some (status, st1) →
            ∃ d, st1.trace = st.trace ++ d ∧
              List.Pairwise (fun a b : Int => a ≤ b) (executed_due d) ∧
              ∀ m : Int, (∀ x ∈ t :: q, m ≤ TaskGetTimeToRun x) →
                ∀ x ∈ executed_due d, m ≤ x := by
          intro st2 htr h1 h2 h3 h4
          obtain ⟨d, hd1, hd2, hd3⟩ := ih st2 status st1 h4 h1 h2 hclock
          refine ⟨exec_of w st t q :: d, by rw [hd1, htr]; simp, ?_, ?_⟩
          · simp only [executed_due, List.map_cons, List.pairwise_cons]
            exact ⟨fun x hx => hd3 _ h3 x hx, hd2⟩
          · intro m hm x hx
            simp only [executed_due, List.map_cons, List.mem_cons] at hx
            have hmt := hm t (List.mem_cons_self _ _)
            rcases hx with hx | hx
            · rw [hx]; exact hmt
            · have := hd3 _ h3 x hx
              simp only [exec_of] at hmt
              omega
        cases hr : w.result st.iter t with
        | DONE =>
          rw [SchedulerRun_body_done w st t q hr] at h
          refine cont _ rfl ?_ ?_ ?_ h
          · exact hsort.2
          · exact hwq
          · exact hsort.1
        | FAILURE =>
          rw [SchedulerRun_body_failure w st t q hr] at h
          simp only [Option.some.injEq, Prod.mk.injEq] at h
          rw [← h.2]
          exact single
        | NOT_DONE =>
          cases ha : w.alloc_ok st.iter with
          | true =>
            rw [SchedulerRun_body_not_done_ok w st t q hr ha] at h
            have hmono := SchedulerRun_loop_now_mono w fuel _ status st1 h
            simp only at hmono
            have hnew : lo ≤ TaskGetTimeToRun
                  (TaskSetTimeToRun t (wait_until_due w st t + w.lag_run st.iter)) ∧
                TaskGetTimeToRun
                  (TaskSetTimeToRun t (wait_until_due w st t + w.lag_run st.iter)) <
                  lo + 2 ^ 31 := by
              simp only [TaskGetTimeToRun, TaskSetTimeToRun]
              simp only [TaskGetTimeToRun] at hcalled ht
              omega
            refine cont _ rfl (PqueueInsert_due_sorted lo _ hnew q hsort.2 hwq) ?_ ?_ h
            · intro x hx
              rcases (PqueueInsert_mem _ _ _ _).mp hx with hx | hx
              · rw [hx]; exact hnew
              · exact hwq x hx
            · intro x hx
              rcases (PqueueInsert_mem _ _ _ _).mp hx with hx | hx
              · rw [hx]
                simp only [TaskGetTimeToRun, TaskSetTimeToRun]
                simp only [TaskGetTimeToRun] at hcalled
                omega
              · exact hsort.1 x hx
          | false =>
            rw [SchedulerRun_body_not_done_fail w st t q hr ha] at h
            simp only [Option.some.injEq, Prod.mk.injEq] at h
            rw [← h.2]
            exact single

/-- Ordering of the executions when all times lie in one window of `2 ^ 31` seconds. -/
theorem SchedulerRun_order_in_window (w : world_ty) (fuel : Nat) (scheduler : scheduler_ty)
    (now lo : Int) (status : run_status_ty) (st : run_state)
    (hrun : SchedulerRun w fuel scheduler now = some (status, st))
    (hsorted : due_sorted scheduler.tasks) (hwindow : due_in_window lo scheduler.tasks)
    (hclock : st.now < lo + 2 ^ 31) :
    List.Pairwise (fun a b : Int => a ≤ b) (executed_due st.trace) := by
  obtain ⟨d, hd1, hd2, _⟩ := SchedulerRun_loop_order w lo fuel _ status st hrun hsorted
    hwindow hclock
  simp only [List.nil_append] at hd1
  rw [hd1]
  exact hd2

/-- The run of `s_three` in which the second task fails, as an instance of the ordering
inside a window. -/
theorem SchedulerRun_order_in_window_instance :
    List.Pairwise (fun a b : Int => a ≤ b) (executed_due st_three_failed.trace) :=
  SchedulerRun_order_in_window w_second_fails 3 s_three 100 0 run_status_ty.FUNC_FAILURE
    st_three_failed rfl (by decide) (by decide) (by decide)

theorem SchedulerAdd_due_sorted (scheduler : scheduler_ty)
    (operation_func interval param : Nat) (now lo : Int) (new_uid : Option ilrd_uid_ty)
    (alloc_ok : Bool) (hsorted : due_sorted scheduler.tasks)
    (hwindow : due_in_window lo scheduler.tasks) (hnow : lo ≤ now ∧ now < lo + 2 ^ 31) :
    due_sorted
        (SchedulerAdd scheduler operation_func interval param now new_uid alloc_ok).2.tasks ∧
      due_in_window lo
        (SchedulerAdd scheduler operation_func interval param now new_uid alloc_ok).2.tasks := by
  cases new_uid with
  | none => simpa [SchedulerAdd, TaskCreate] using ⟨hsorted, hwindow⟩
  | some u =>
    by_cases hu : u = UIDGetBadUID
    · simpa [SchedulerAdd, TaskCreate, UIDIsEqual, hu] using ⟨hsorted, hwindow⟩
    · cases alloc_ok with
      | false =>
        simpa [SchedulerAdd, TaskCreate, UIDIsEqual, hu, PqueueEnqueue] using ⟨hsorted, hwindow⟩
      | true =>
        simp only [SchedulerAdd, TaskCreate, UIDIsEqual, hu, PqueueEnqueue, decide_False,
          Bool.false_eq_true, if_false, if_true]
        refine ⟨PqueueInsert_due_sorted lo _ ?_ _ hsorted hwindow, ?_⟩
        · exact hnow
        intro x hx
        rcases (PqueueInsert_mem _ _ _ _).mp hx with hx | hx
        · rw [hx]; exact hnow
        · exact hwindow x hx


/-! ## Order of execution -/

/-- C1 (fails on the code). Two tasks are added by `SchedulerAdd`, the first when the clock
reads 1000000000 and the second `3 * 2 ^ 30` seconds later; the clock is monotone and both
operations return DONE. The narrowed difference of `SortTasks` reports the second task
as the earlier one, the queue holds it first, and `SchedulerRun` executes the task due
at 4221225472 before the task due at 1000000000: the due times of the executed tasks
are not in non-decreasing order. -/
theorem C1_order_violated :
    s_far.to_stop = false ∧
    SortTasks (task_at 1 1000000000) (task_at 2 4221225472) = 1073741824 ∧
    s_far.tasks =
      [{ task_at 2 4221225472 with operation_func := 7 },
        { task_at 1 1000000000 with operation_func := 7 }] ∧
    (SchedulerRun w_done 2 s_far 4221225472).map
        (fun r => (r.1, executed_due r.2.trace)) =
      some (run_status_ty.FINISHED, [4221225472, 1000000000]) ∧
    ¬ List.Pairwise (fun a b : Int => a ≤ b) [4221225472, 1000000000] := by
  decide


/-! ## Runs in which every task completes -/

theorem SchedulerRun_loop_all_done (w : world_ty) :
    ∀ (q : p_queue_ty) (st : run_state) (fuel : Nat), st.sched.tasks = q →
      st.sched.to_stop = false → (∀ n, ∀ t ∈ q, w.result n t = oper_ret_ty.DONE) →
      q.length ≤ fuel →
      ∃ st1, SchedulerRun_loop w fuel st = some (run_status_ty.FINISHED, st1) ∧
        st1.sched.tasks = [] ∧
        executed_tasks st1.trace = executed_tasks st.trace ++ q ∧
        (∀ e ∈ st1.trace, e ∈ st.trace ∨ e.ret = oper_ret_ty.DONE) := by
  intro q
  induction q with
  | nil =>
    intro st fuel hq _ _ _
    have hc : SchedulerRun_cond st = false := by
      cases h : SchedulerRun_cond st
      · rfl
      · rw [SchedulerRun_cond_eq] at h; exact absurd hq h.1
    refine ⟨st, ?_, hq, by simp, fun e he => Or.inl he⟩
    rw [SchedulerRun_loop_exit w fuel st hc]
    simp [SchedulerRun_exit, SchedulerIsEmpty, PqueueIsEmpty, hq]
  | cons t q ih =>
    intro st fuel hq hs hd hf
    cases fuel with
    | zero => simp at hf
    | succ fuel =>
      have hdt : w.result st.iter t = oper_ret_ty.DONE := hd _ t (List.mem_cons_self _ _)
      rw [SchedulerRun_loop_step w fuel st t q hq hs, SchedulerRun_body_done w st t q hdt]
      obtain ⟨st1, h1, h2, h3, h4⟩ := ih
        { sched := { st.sched with tasks := q },
          now := wait_until_due w st t + w.lag_run st.iter, iter := st.iter + 1,
          trace := st.trace ++ [exec_of w st t q] } fuel rfl hs
        (fun n x hx => hd n x (List.mem_cons_of_mem _ hx)) (by simpa using hf)
      refine ⟨st1, h1, h2, ?_, ?_⟩
      · rw [h3]; simp [executed_tasks, exec_of]
      · intro e he
        rcases h4 e he with h | h
        · rcases List.mem_append.mp h with h | h
          · exact Or.inl h
          · right
            rw [List.mem_singleton.mp h]
            exact hdt
        · exact Or.inr h

theorem SchedulerRun_loop_done_gone (w : world_ty) :
    ∀ (fuel : Nat) (st : run_state) (status : run_status_ty) (st1 : run_state),
      SchedulerRun_loop w fuel st = some (status, st1) →
      (pending_uids st.sched).Nodup →
      ∃ d, st1.trace = st.trace ++ d ∧ (pending_uids st1.sched).Nodup ∧
        (∀ u ∈ pending_uids st1.sched, u ∈ pending_uids st.sched) ∧
        ∀ e ∈ d, e.ret = oper_ret_ty.DONE → TaskGetUid e.task ∉ pending_uids st1.sched := by
  intro fuel
  induction fuel with
  | zero =>
    intro st status st1 h hn
    cases hc : SchedulerRun_cond st with
    | true => simp [SchedulerRun_loop, hc] at h
    | false =>
      rw [SchedulerRun_loop_exit w 0 st hc] at h
      simp only [Option.some.injEq, Prod.mk.injEq] at h
      rw [← h.2]
      exact ⟨[], by simp, hn, fun u hu => hu, by simp⟩
  | succ fuel ih =>
    intro st status st1 h hn
    cases hc : SchedulerRun_cond st with
    | false =>
      rw [SchedulerRun_loop_exit w _ st hc] at h
      simp only [Option.some.injEq, Prod.mk.injEq] at h
      rw [← h.2]
      exact ⟨[], by simp, hn, fun u hu => hu, by simp⟩
    | true =>
      obtain ⟨hne, hs⟩ := (SchedulerRun_cond_eq st).mp hc
      cases hq : st.sched.tasks with
      | nil => exact absurd hq hne
      | cons t q =>
        rw [SchedulerRun_loop_step w fuel st t q hq hs] at h
        simp only [pending_uids, hq, List.map_cons, List.nodup_cons] at hn
        cases hr : w.result st.iter t with
        | DONE =>
          rw [SchedulerRun_body_done w st t q hr] at h
          obtain ⟨d, hd1, hd2, hd3, hd4⟩ := ih _ status st1 h hn.2
          refine ⟨exec_of w st t q :: d, by rw [hd1]; simp, hd2, ?_, ?_⟩
          · intro u hu
            simp only [pending_uids, hq, List.map_cons]
            exact List.mem_cons_of_mem _ (hd3 u hu)
          · intro e he hdone
            rcases List.mem_cons.mp he with he | he
            · rw [he]
              intro hmem
              exact hn.1 (hd3 _ hmem)
            · exact hd4 e he hdone
        | FAILURE =>
          rw [SchedulerRun_body_failure w st t q hr] at h
          simp only [Option.some.injEq, Prod.mk.injEq] at h
          rw [← h.2]
          refine ⟨[exec_of w st t q], rfl, hn.2, ?_, ?_⟩
          · intro u hu
            simp only [pending_uids, hq, List.map_cons]
            exact List.mem_cons_of_mem _ hu
          · intro e he hdone
            rw [List.mem_singleton.mp he] at hdone
            simp [exec_of, hr] at hdone
        | NOT_DONE =>
          cases ha : w.alloc_ok st.iter with
          | true =>
            rw [SchedulerRun_body_not_done_ok w st t q hr ha] at h
            have hp := (PqueueInsert_perm SortTasks
              (TaskSetTimeToRun t (wait_until_due w st t + w.lag_run st.iter)) q).map
              TaskGetUid
            have hn2 : (pending_uids
                { tasks := PqueueInsert SortTasks
                    (TaskSetTimeToRun t (wait_until_due w st t + w.lag_run st.iter)) q,
                  to_stop := st.sched.to_stop }).Nodup := by
              refine (List.Perm.nodup_iff hp).mpr ?_
              simp only [List.map_cons, List.nodup_cons]
              exact hn
            obtain ⟨d, hd1, hd2, hd3, hd4⟩ := ih _ status st1 h hn2
            refine ⟨exec_of w st t q :: d, by rw [hd1]; simp, hd2, ?_, ?_⟩
            · intro u hu
              have hu2 := hp.mem_iff.mp (hd3 u hu)
              simpa [pending_uids, hq, TaskGetUid, TaskSetTimeToRun] using hu2
            · intro e he hdone
              rcases List.mem_cons.mp he with he | he
              · rw [he] at hdone
                simp [exec_of, hr] at hdone
              · exact hd4 e he hdone
          | false =>
            rw [SchedulerRun_body_not_done_fail w st t q hr ha] at h
            simp only [Option.some.injEq, Prod.mk.injEq] at h
            rw [← h.2]
            refine ⟨[exec_of w st t q], rfl, hn.2, ?_, ?_⟩
            · intro u hu
              simp only [pending_uids, hq, List.map_cons]
              exact List.mem_cons_of_mem _ hu
            · intro e he hdone
              rw [List.mem_singleton.mp he] at hdone
              simp [exec_of, hr] at hdone

/-- C2. First part: for a scheduler whose stop flag is not set and whose pending tasks all
have operations returning DONE, `SchedulerRun` (with fuel for one iteration per pending
task) returns FINISHED, has executed each pending task exactly once (the executed tasks
are the pending tasks, in the order of the queue), leaves `SchedulerSize` equal to 0, and
every executed task returned DONE and is not pending afterwards. Second part: in every
run that returns, on a scheduler whose pending identifiers are pairwise distinct, a task
whose execution returned DONE is not pending on return. -/
theorem C2_run_all_done (w : world_ty) (fuel : Nat) (scheduler : scheduler_ty)
    (now : Int) :
    (scheduler.to_stop = false →
      (∀ n, ∀ t ∈ scheduler.tasks, w.result n t = oper_ret_ty.DONE) →
      SchedulerSize scheduler ≤ fuel →
      ∃ st, SchedulerRun w fuel scheduler now = some (run_status_ty.FINISHED, st) ∧
        executed_tasks st.trace = scheduler.tasks ∧
        SchedulerSize st.sched = 0 ∧
        SchedulerIsEmpty st.sched = true ∧
        ∀ e ∈ st.trace, e.ret = oper_ret_ty.DONE ∧ e.task ∉ st.sched.tasks) ∧
    (∀ status st, SchedulerRun w fuel scheduler now = some (status, st) →
      (pending_uids scheduler).Nodup →
      ∀ e ∈ st.trace, e.ret = oper_ret_ty.DONE →
        ∀ t ∈ st.sched.tasks, TaskGetUid t ≠ TaskGetUid e.task) := by
  constructor
  · intro hstop hdone hfuel
    obtain ⟨st, h1, h2, h3, h4⟩ := SchedulerRun_loop_all_done w scheduler.tasks
      { sched := scheduler, now := now, iter := 0, trace := [] } fuel rfl hstop hdone hfuel
    refine ⟨st, h1, by simpa [executed_tasks] using h3,
      by simp [SchedulerSize, PqueueSize, h2], by simp [SchedulerIsEmpty, PqueueIsEmpty, h2],
      ?_⟩
    intro e he
    refine ⟨?_, by simp [h2]⟩
    rcases h4 e he with h | h
    · simp at h
    · exact h
  · intro status st h hn e he hdone t ht heq
    obtain ⟨d, hd1, _, _, hd4⟩ := SchedulerRun_loop_done_gone w fuel _ status st h hn
    simp only [List.nil_append] at hd1
    rw [hd1] at he
    exact hd4 e he hdone (by rw [← heq]; exact List.mem_map_of_mem _ ht)

/-- Witness of C2: three tasks due at 100, 101 and 102 that return DONE; and the run of
`s_three` in which the first task completes and the second fails. -/
theorem C2_run_all_done_witness :
    (∃ st, SchedulerRun w_done 3 s_three 100 = some (run_status_ty.FINISHED, st) ∧
      executed_tasks st.trace = s_three.tasks ∧
      SchedulerSize st.sched = 0 ∧
      SchedulerIsEmpty st.sched = true ∧
      ∀ e ∈ st.trace, e.ret = oper_ret_ty.DONE ∧ e.task ∉ st.sched.tasks) ∧
    (∀ t ∈ st_three_failed.sched.tasks, TaskGetUid t ≠ TaskGetUid e_completed.task) :=
  ⟨(C2_run_all_done w_done 3 s_three 100).1 rfl (fun _ _ _ => rfl) (by decide),
    (C2_run_all_done w_second_fails 3 s_three 100).2 run_status_ty.FUNC_FAILURE
      st_three_failed rfl (by decide) e_completed (by decide) rfl⟩

/-! ## A failing operation -/

theorem SchedulerRun_loop_failure (w : world_ty) :
    ∀ (fuel : Nat) (st : run_state) (status : run_status_ty) (st1 : run_state),
      SchedulerRun_loop w fuel st = some (status, st1) →
      ∃ d, st1.trace = st.trace ++ d ∧
        ∀ e ∈ d, e.ret = oper_ret_ty.FAILURE →
          status = run_status_ty.FUNC_FAILURE ∧ st1.sched.tasks = e.rest ∧
            ∃ front, d = front ++ [e] := by
  intro fuel
  induction fuel with
  | zero =>
    intro st status st1 h
    cases hc : SchedulerRun_cond st with
    | true => simp [SchedulerRun_loop, hc] at h
    | false =>
      rw [SchedulerRun_loop_exit w 0 st hc] at h
      simp only [Option.some.injEq, Prod.mk.injEq] at h
      exact ⟨[], by simp [← h.2], by simp⟩
  | succ fuel ih =>
    intro st status st1 h
    cases hc : SchedulerRun_cond st with
    | false =>
      rw [SchedulerRun_loop_exit w _ st hc] at h
      simp only [Option.some.injEq, Prod.mk.injEq] at h
      exact ⟨[], by simp [← h.2], by simp⟩
    | true =>
      obtain ⟨hne, hs⟩ := (SchedulerRun_cond_eq st).mp hc
      cases hq : st.sched.tasks with
      | nil => exact absurd hq hne
      | cons t q =>
        rw [SchedulerRun_loop_step w fuel st t q hq hs] at h
        have cont : ∀ st2 : run_state, st2.trace = st.trace ++ [exec_of w st t q] →
            w.result st.iter t ≠ oper_ret_ty.FAILURE →
            SchedulerRun_loop w fuel st2 = some (status, st1) →
            ∃ d, st1.trace = st.trace ++ d ∧
              ∀ e ∈ d, e.ret = oper_ret_ty.FAILURE →
                status = run_status_ty.FUNC_FAILURE ∧ st1.sched.tasks = e.rest ∧
                  ∃ front, d = front ++ [e] := by
          intro st2 ht hnf h2
          obtain ⟨d, hd1, hd2⟩ := ih st2 status st1 h2
          refine ⟨exec_of w st t q :: d, by rw [hd1, ht]; simp, ?_⟩
          intro e he hf
          rcases List.mem_cons.mp he with he | he
          · rw [he] at hf; exact absurd hf hnf
          · obtain ⟨a, b, front, c⟩ := hd2 e he hf
            exact ⟨a, b, exec_of w st t q :: front, by rw [c]; simp⟩
        cases hr : w.result st.iter t with
        | DONE =>
          rw [SchedulerRun_body_done w st t q hr] at h
          exact cont _ rfl (by simp [hr]) h
        | FAILURE =>
          rw [SchedulerRun_body_failure w st t q hr] at h
          simp only [Option.some.injEq, Prod.mk.injEq] at h
          refine ⟨[exec_of w st t q], by simp [← h.2], ?_⟩
          intro e he _
          rw [List.mem_singleton.mp he]
          exact ⟨h.1.symm, by simp [← h.2, exec_of], [], by simp⟩
        | NOT_DONE =>
          cases ha : w.alloc_ok st.iter with
          | true =>
            rw [SchedulerRun_body_not_done_ok w st t q hr ha] at h
            exact cont _ rfl (by simp [hr]) h
          | false =>
            rw [SchedulerRun_body_not_done_fail w st t q hr ha] at h
            simp only [Option.some.injEq, Prod.mk.injEq] at h
            refine ⟨[exec_of w st t q], by simp [← h.2], ?_⟩
            intro e he hf
            rw [List.mem_singleton.mp he] at hf
            simp [exec_of, hr] at hf

/-- C3. First part: when the task at the head of the queue returns FAILURE, the loop of
`SchedulerRun` returns FUNC_FAILURE in that iteration, the trace grows by that one
execution, and the queue afterwards is exactly the rest of the queue, with every other
task unchanged; when the pending identifiers are pairwise distinct, no pending task has
the identifier of the failing task. Second part: in every run that returns, an execution
that returned FAILURE is the last execution of the run, the run returns FUNC_FAILURE, and
the queue on return is the queue that was left when the failing task was dequeued. -/
theorem C3_failure_aborts (w : world_ty) (fuel : Nat) :
    (∀ (st : run_state) (task : task_ty) (rest : p_queue_ty),
      st.sched.tasks = task :: rest → st.sched.to_stop = false →
      w.result st.iter task = oper_ret_ty.FAILURE →
      ∃ st1, SchedulerRun_loop w (fuel + 1) st = some (run_status_ty.FUNC_FAILURE, st1) ∧
        st1.trace = st.trace ++ [exec_of w st task rest] ∧
        st1.sched.tasks = rest ∧
        st1.sched.to_stop = st.sched.to_stop ∧
        ((pending_uids st.sched).Nodup →
          ∀ t ∈ st1.sched.tasks, TaskGetUid t ≠ TaskGetUid task)) ∧
    (∀ (scheduler : scheduler_ty) (now : Int) (status : run_status_ty)
        (st1 : run_state),
      SchedulerRun w fuel scheduler now = some (status, st1) →
      ∀ e ∈ st1.trace, e.ret = oper_ret_ty.FAILURE →
        status = run_status_ty.FUNC_FAILURE ∧ (∃ front, st1.trace = front ++ [e]) ∧
          st1.sched.tasks = e.rest) := by
  constructor
  · intro st task rest hq hs hr
    rw [SchedulerRun_loop_step w fuel st task rest hq hs,
      SchedulerRun_body_failure w st task rest hr]
    refine ⟨_, rfl, rfl, rfl, rfl, ?_⟩
    intro hnd t ht heq
    simp only [pending_uids, hq, List.map_cons, List.nodup_cons] at hnd
    exact hnd.1 (by rw [← heq]; exact List.mem_map_of_mem _ ht)
  · intro scheduler now status st1 h e he hf
    obtain ⟨d, hd1, hd2⟩ := SchedulerRun_loop_failure w fuel _ status st1 h
    simp only [List.nil_append] at hd1
    rw [hd1] at he ⊢
    obtain ⟨a, b, c⟩ := hd2 e he hf
    exact ⟨a, c, b⟩

/-- Witness of C3: the task with identifier 2 of `s_three` fails. -/
theorem C3_failure_aborts_witness :
    (∃ st1, SchedulerRun_loop w_second_fails (0 + 1) st_failing =
        some (run_status_ty.FUNC_FAILURE, st1) ∧
      st1.trace = st_failing.trace ++
        [exec_of w_second_fails st_failing (task_at 2 101) [task_at 3 102]] ∧
      st1.sched.tasks = [task_at 3 102] ∧
      st1.sched.to_stop = st_failing.sched.to_stop ∧
      ((pending_uids st_failing.sched).Nodup →
        ∀ t ∈ st1.sched.tasks, TaskGetUid t ≠ TaskGetUid (task_at 2 101))) ∧
    (run_status_ty.FUNC_FAILURE = run_status_ty.FUNC_FAILURE ∧
      (∃ front, st_three_failed.trace = front ++ [e_failing]) ∧
      st_three_failed.sched.tasks = e_failing.rest) :=
  ⟨(C3_failure_aborts w_second_fails 0).1 st_failing (task_at 2 101) [task_at 3 102] rfl rfl
      rfl,
    (C3_failure_aborts w_second_fails 3).2 s_three 100 run_status_ty.FUNC_FAILURE
      st_three_failed rfl e_failing (by decide) rfl⟩

theorem SchedulerRun_loop_done_then_failure (w : world_ty) (f : task_ty) (post : p_queue_ty)
    (hf : ∀ n, w.result n f = oper_ret_ty.FAILURE) :
    ∀ (pre : p_queue_ty) (st : run_state) (fuel : Nat), st.sched.tasks = pre ++ f :: post →
      st.sched.to_stop = false → (∀ n, ∀ t ∈ pre, w.result n t = oper_ret_ty.DONE) →
      pre.length + 1 ≤ fuel →
      ∃ st1, SchedulerRun_loop w fuel st = some (run_status_ty.FUNC_FAILURE, st1) ∧
        st1.sched.tasks = post ∧
        executed_tasks st1.trace = executed_tasks st.trace ++ pre ++ [f] := by
  intro pre
  induction pre with
  | nil =>
    intro st fuel hq hs _ hfuel
    cases fuel with
    | zero => simp at hfuel
    | succ fuel =>
      rw [SchedulerRun_loop_step w fuel st f post (by simpa using hq) hs,
        SchedulerRun_body_failure w st f post (hf _)]
      exact ⟨_, rfl, rfl, by simp [executed_tasks, exec_of]⟩
  | cons t pre ih =>
    intro st fuel hq hs hd hfuel
    cases fuel with
    | zero => simp at hfuel
    | succ fuel =>
      rw [SchedulerRun_loop_step w fuel st t (pre ++ f :: post) (by simpa using hq) hs,
        SchedulerRun_body_done w st t _ (hd _ t (List.mem_cons_self _ _))]
      obtain ⟨st1, h1, h2, h3⟩ := ih
        { sched := { st.sched with tasks := pre ++ f :: post },
          now := wait_until_due w st t + w.lag_run st.iter, iter := st.iter + 1,
          trace := st.trace ++ [exec_of w st t (pre ++ f :: post)] } fuel rfl hs
        (fun n x hx => hd n x (List.mem_cons_of_mem _ hx)) (by simpa using hfuel)
      exact ⟨st1, h1, h2, by rw [h3]; simp [executed_tasks, exec_of]⟩

theorem done_count_cons (e : exec_ty) (d : List exec_ty) :
    done_count (e :: d) = (if e.ret = oper_ret_ty.DONE then 1 else 0) + done_count d := by
  unfold done_count
  by_cases h : e.ret = oper_ret_ty.DONE
  · simp [List.filter_cons, h]; omega
  · simp [List.filter_cons, h]

theorem SchedulerRun_loop_size (w : world_ty) :
    ∀ (fuel : Nat) (st : run_state) (status : run_status_ty) (st1 : run_state),
      SchedulerRun_loop w fuel st = some (status, st1) →
      ∃ d, st1.trace = st.trace ++ d ∧
        st1.sched.tasks.length + done_count d +
          (if status = run_status_ty.FUNC_FAILURE ∨ status = run_status_ty.SCH_FAILURE
            then 1 else 0) = st.sched.tasks.length := by
  intro fuel
  induction fuel with
  | zero =>
    intro st status st1 h
    cases hc : SchedulerRun_cond st with
    | true => simp [SchedulerRun_loop, hc] at h
    | false =>
      rw [SchedulerRun_loop_exit w 0 st hc] at h
      simp only [Option.some.injEq, Prod.mk.injEq] at h
      refine ⟨[], by simp [← h.2], ?_⟩
      rw [← h.1, ← h.2]
      unfold SchedulerRun_exit
      split <;> simp [done_count]
  | succ fuel ih =>
    intro st status st1 h
    cases hc : SchedulerRun_cond st with
    | false =>
      rw [SchedulerRun_loop_exit w _ st hc] at h
      simp only [Option.some.injEq, Prod.mk.injEq] at h
      refine ⟨[], by simp [← h.2], ?_⟩
      rw [← h.1, ← h.2]
      unfold SchedulerRun_exit
      split <;> simp [done_count]
    | true =>
      obtain ⟨hne, hs⟩ := (SchedulerRun_cond_eq st).mp hc
      cases hq : st.sched.tasks with
      | nil => exact absurd hq hne
      | cons t q =>
        rw [SchedulerRun_loop_step w fuel st t q hq hs] at h
        cases hr : w.result st.iter t with
        | DONE =>
          rw [SchedulerRun_body_done w st t q hr] at h
          obtain ⟨d, hd1, hd2⟩ := ih _ status st1 h
          refine ⟨exec_of w st t q :: d, by rw [hd1]; simp, ?_⟩
          rw [done_count_cons]
          simp only [exec_of, hr, if_true, List.length_cons] at hd2 ⊢
          omega
        | FAILURE =>
          rw [SchedulerRun_body_failure w st t q hr] at h
          simp only [Option.some.injEq, Prod.mk.injEq] at h
          refine ⟨[exec_of w st t q], by simp [← h.2], ?_⟩
          rw [← h.1, ← h.2, done_count_cons]
          simp [exec_of, hr, done_count]
        | NOT_DONE =>
          cases ha : w.alloc_ok st.iter with
          | true =>
            rw [SchedulerRun_body_not_done_ok w st t q hr ha] at h
            obtain ⟨d, hd1, hd2⟩ := ih _ status st1 h
            refine ⟨exec_of w st t q :: d, by rw [hd1]; simp, ?_⟩
            rw [done_count_cons]
            simp only [exec_of, hr, PqueueInsert_length, List.length_cons] at hd2 ⊢
            simpa using hd2
          | false =>
            rw [SchedulerRun_body_not_done_fail w st t q hr ha] at h
            simp only [Option.some.injEq, Prod.mk.injEq] at h
            refine ⟨[exec_of w st t q], by simp [← h.2], ?_⟩
            rw [← h.1, ← h.2, done_count_cons]
            simp [exec_of, hr, done_count]

/-- C4 as stated fails: of the two pending tasks exactly one returns FAILURE, the run
returns FUNC_FAILURE, and `SchedulerSize` afterwards is 0, not `2 - 1`, because the task
due earlier completed with DONE before the failing task ran. -/
theorem C4_counterexample :
    s_two.to_stop = false ∧ SchedulerSize s_two = 2 ∧
    s_two.tasks.filter (fun t => decide (w_second_fails.result 0 t = oper_ret_ty.FAILURE)) =
      [task_at 2 101] ∧
    (SchedulerRun w_second_fails 2 s_two 100).map (fun r => (r.1, SchedulerSize r.2.sched)) =
      some (run_status_ty.FUNC_FAILURE, 0) ∧
    SchedulerSize s_two - 1 ≠ 0 := by
  decide

/-- C4, amended. For a scheduler that is not stopped and whose queue is `pre`, then a task
`f`, then `post`, where every task of `pre` returns DONE and `f` returns FAILURE,
`SchedulerRun` returns FUNC_FAILURE after executing `pre` and `f`, the queue afterwards
is `post`, and `SchedulerSize` afterwards is the size before minus one minus the length
of `pre`: it is N-1 exactly when the failing task is dequeued first. Whenever
`SchedulerRun` returns FUNC_FAILURE, `SchedulerSize` afterwards is the size before minus
one minus the number of executions that returned DONE. -/
theorem C4_failure_size (w : world_ty) (fuel : Nat) (scheduler : scheduler_ty)
    (now : Int) :
    (∀ (pre post : p_queue_ty) (f : task_ty), scheduler.tasks = pre ++ f :: post →
      scheduler.to_stop = false → (∀ n, ∀ t ∈ pre, w.result n t = oper_ret_ty.DONE) →
      (∀ n, w.result n f = oper_ret_ty.FAILURE) → pre.length + 1 ≤ fuel →
      ∃ st, SchedulerRun w fuel scheduler now = some (run_status_ty.FUNC_FAILURE, st) ∧
        executed_tasks st.trace = pre ++ [f] ∧
        st.sched.tasks = post ∧
        SchedulerSize st.sched = SchedulerSize scheduler - 1 - pre.length) ∧
    (∀ st, SchedulerRun w fuel scheduler now = some (run_status_ty.FUNC_FAILURE, st) →
      SchedulerSize st.sched = SchedulerSize scheduler - 1 - done_count st.trace ∧
      1 + done_count st.trace ≤ SchedulerSize scheduler) := by
  constructor
  · intro pre post f hq hs hd hf hfuel
    obtain ⟨st, h1, h2, h3⟩ := SchedulerRun_loop_done_then_failure w f post hf pre
      { sched := scheduler, now := now, iter := 0, trace := [] } fuel hq hs hd hfuel
    refine ⟨st, h1, by simpa [executed_tasks] using h3, h2, ?_⟩
    simp [SchedulerSize, PqueueSize, h2, hq]
  · intro st h
    obtain ⟨d, hd1, hd2⟩ := SchedulerRun_loop_size w fuel _ _ st h
    simp only [List.nil_append] at hd1
    rw [hd1]
    simp only [true_or, if_true] at hd2
    simp only [SchedulerSize, PqueueSize]
    omega

/-- Witness of the amended C4: in `s_three` one task completes before the failing one. -/
theorem C4_failure_size_witness :
    (∃ st, SchedulerRun w_second_fails 3 s_three 100 =
        some (run_status_ty.FUNC_FAILURE, st) ∧
      executed_tasks st.trace = [task_at 1 100] ++ [task_at 2 101] ∧
      st.sched.tasks = [task_at 3 102] ∧
      SchedulerSize st.sched = SchedulerSize s_three - 1 - [task_at 1 100].length) ∧
    (SchedulerSize st_three_failed.sched =
        SchedulerSize s_three - 1 - done_count st_three_failed.trace ∧
      1 + done_count st_three_failed.trace ≤ SchedulerSize s_three) :=
  ⟨(C4_failure_size w_second_fails 3 s_three 100).1 [task_at 1 100] [task_at 3 102]
      (task_at 2 101) rfl rfl
      (fun _ t ht => by rw [List.mem_singleton.mp ht]; rfl) (fun _ => rfl) (by decide),
    (C4_failure_size w_second_fails 3 s_three 100).2 st_three_failed rfl⟩


/-! ## Rescheduling after NOT_DONE -/

/-- C5. When the task at the head of the queue returns NOT_DONE and the reinsertion
succeeds, the iteration continues the loop in a state whose queue holds the same task
again (same identifier, operation, interval and argument) next to the untouched rest,
`SchedulerSize` is what it was before the iteration, and the due time of the task is the
clock value read after the execution, which differs from that value plus the interval
whenever the interval is positive. -/
theorem C5_not_done_reschedules (w : world_ty) (st : run_state) (task : task_ty)
    (rest : p_queue_ty) (fuel : Nat) (hq : st.sched.tasks = task :: rest)
    (hs : st.sched.to_stop = false) (hr : w.result st.iter task = oper_ret_ty.NOT_DONE)
    (ha : w.alloc_ok st.iter = true) :
    ∃ st1 again,
      SchedulerRun_body w st task rest = step_ty.next st1 ∧
      SchedulerRun_loop w (fuel + 1) st = SchedulerRun_loop w fuel st1 ∧
      st1.now = wait_until_due w st task + w.lag_run st.iter ∧
      again ∈ st1.sched.tasks ∧
      List.Perm st1.sched.tasks (again :: rest) ∧
      again.uid = task.uid ∧ again.operation_func = task.operation_func ∧
      again.interval = task.interval ∧ again.param = task.param ∧
      TaskGetTimeToRun again = st1.now ∧
      (0 < task.interval → TaskGetTimeToRun again ≠ st1.now + task.interval) ∧
      SchedulerSize st1.sched = SchedulerSize st.sched := by
  refine ⟨_, TaskSetTimeToRun task (wait_until_due w st task + w.lag_run st.iter),
    SchedulerRun_body_not_done_ok w st task rest hr ha, ?_, rfl, ?_, ?_, rfl, rfl, rfl, rfl,
    rfl, ?_, ?_⟩
  · rw [SchedulerRun_loop_step w fuel st task rest hq hs,
      SchedulerRun_body_not_done_ok w st task rest hr ha]
  · exact (PqueueInsert_mem _ _ _ _).mpr (Or.inl rfl)
  · exact PqueueInsert_perm _ _ _
  · intro hi
    simp only [TaskGetTimeToRun, TaskSetTimeToRun]
    intro heq
    have hz : (task.interval : Int) = 0 := by linarith
    omega
  · simp [SchedulerSize, PqueueSize, PqueueInsert_length, hq]

/-- Witness of C5: a task with interval 5 that returns NOT_DONE once. -/
theorem C5_not_done_reschedules_witness :
    ∃ st1 again,
      SchedulerRun_body w_retry st_retry t_retry [task_at 2 101] = step_ty.next st1 ∧
      SchedulerRun_loop w_retry (2 + 1) st_retry = SchedulerRun_loop w_retry 2 st1 ∧
      st1.now = wait_until_due w_retry st_retry t_retry + w_retry.lag_run st_retry.iter ∧
      again ∈ st1.sched.tasks ∧
      List.Perm st1.sched.tasks (again :: [task_at 2 101]) ∧
      again.uid = t_retry.uid ∧ again.operation_func = t_retry.operation_func ∧
      again.interval = t_retry.interval ∧ again.param = t_retry.param ∧
      TaskGetTimeToRun again = st1.now ∧
      (0 < t_retry.interval → TaskGetTimeToRun again ≠ st1.now + t_retry.interval) ∧
      SchedulerSize st1.sched = SchedulerSize st_retry.sched :=
  C5_not_done_reschedules w_retry st_retry t_retry [task_at 2 101] 2 rfl rfl rfl rfl


/-! ## Stop flag and exit status -/

/-- C6. For a scheduler with at least one pending task, `SchedulerStop` followed by
`SchedulerRun` returns STOPPED, whatever the fuel, executes no task, and leaves the queue
and `SchedulerSize` as they were. -/
theorem C6_stop_then_run (w : world_ty) (scheduler : scheduler_ty) (now : Int)
    (fuel : Nat) (hpending : 1 ≤ SchedulerSize scheduler) :
    ∃ st, SchedulerRun w fuel (SchedulerStop scheduler) now =
        some (run_status_ty.STOPPED, st) ∧
      st.trace = [] ∧
      st.sched.tasks = scheduler.tasks ∧
      SchedulerSize st.sched = SchedulerSize scheduler := by
  have hc : SchedulerRun_cond
      { sched := SchedulerStop scheduler, now := now, iter := 0, trace := [] } = false := by
    simp [SchedulerRun_cond, SchedulerStop]
  refine ⟨{ sched := SchedulerStop scheduler, now := now, iter := 0, trace := [] }, ?_, rfl,
    rfl, rfl⟩
  unfold SchedulerRun
  rw [SchedulerRun_loop_exit w fuel _ hc]
  cases hq : scheduler.tasks with
  | nil => simp [SchedulerSize, PqueueSize, hq] at hpending
  | cons t q => simp [SchedulerRun_exit, SchedulerIsEmpty, PqueueIsEmpty, SchedulerStop, hq]

/-- Witness of C6: `s_three` is stopped and then run. -/
theorem C6_stop_then_run_witness :
    ∃ st, SchedulerRun w_done 0 (SchedulerStop s_three) 0 =
        some (run_status_ty.STOPPED, st) ∧
      st.trace = [] ∧
      st.sched.tasks = s_three.tasks ∧
      SchedulerSize st.sched = SchedulerSize s_three :=
  C6_stop_then_run w_done s_three 0 0 (by decide)

theorem SchedulerRun_loop_status (w : world_ty) :
    ∀ (fuel : Nat) (st : run_state) (status : run_status_ty) (st1 : run_state),
      SchedulerRun_loop w fuel st = some (status, st1) →
      (status = run_status_ty.FINISHED → st1.sched.tasks = []) ∧
      (status = run_status_ty.STOPPED → st1.sched.to_stop = true ∧ st1.sched.tasks ≠ []) := by
  intro fuel
  induction fuel with
  | zero =>
    intro st status st1 h
    cases hc : SchedulerRun_cond st with
    | true => simp [SchedulerRun_loop, hc] at h
    | false =>
      rw [SchedulerRun_loop_exit w 0 st hc] at h
      simp only [Option.some.injEq, Prod.mk.injEq] at h
      obtain ⟨h1, h2⟩ := h
      subst h2
      have hc2 : ¬ (st.sched.tasks ≠ [] ∧ st.sched.to_stop = false) := by
        rw [← SchedulerRun_cond_eq, hc]; simp
      cases hq : st.sched.tasks with
      | nil => simp [SchedulerRun_exit, SchedulerIsEmpty, PqueueIsEmpty, hq] at h1; simp [← h1]
      | cons t q =>
        simp [SchedulerRun_exit, SchedulerIsEmpty, PqueueIsEmpty, hq] at h1
        simp [hq] at hc2
        simp [← h1, hc2]
  | succ fuel ih =>
    intro st status st1 h
    cases hc : SchedulerRun_cond st with
    | false =>
      rw [SchedulerRun_loop_exit w _ st hc] at h
      simp only [Option.some.injEq, Prod.mk.injEq] at h
      obtain ⟨h1, h2⟩ := h
      subst h2
      have hc2 : ¬ (st.sched.tasks ≠ [] ∧ st.sched.to_stop = false) := by
        rw [← SchedulerRun_cond_eq, hc]; simp
      cases hq : st.sched.tasks with
      | nil => simp [SchedulerRun_exit, SchedulerIsEmpty, PqueueIsEmpty, hq] at h1; simp [← h1]
      | cons t q =>
        simp [SchedulerRun_exit, SchedulerIsEmpty, PqueueIsEmpty, hq] at h1
        simp [hq] at hc2
        simp [← h1, hc2]
    | true =>
      obtain ⟨hne, hs⟩ := (SchedulerRun_cond_eq st).mp hc
      cases hq : st.sched.tasks with
      | nil => exact absurd hq hne
      | cons t q =>
        rw [SchedulerRun_loop_step w fuel st t q hq hs] at h
        cases hr : w.result st.iter t with
        | DONE =>
          rw [SchedulerRun_body_done w st t q hr] at h
          exact ih _ _ _ h
        | FAILURE =>
          rw [SchedulerRun_body_failure w st t q hr] at h
          simp only [Option.some.injEq, Prod.mk.injEq] at h
          simp [← h.1]
        | NOT_DONE =>
          cases ha : w.alloc_ok st.iter with
          | true =>
            rw [SchedulerRun_body_not_done_ok w st t q hr ha] at h
            exact ih _ _ _ h
          | false =>
            rw [SchedulerRun_body_not_done_fail w st t q hr ha] at h
            simp only [Option.some.injEq, Prod.mk.injEq] at h
            simp [← h.1]

/-- C7. Every call of `SchedulerRun` that returns FINISHED returns with an empty queue,
every call that returns STOPPED returns with the stop flag set and at least one pending
task; a call on an empty queue returns FINISHED, whatever the stop flag and the fuel. -/
theorem C7_exit_status (w : world_ty) (fuel : Nat) (scheduler : scheduler_ty)
    (now : Int) :
    (∀ status st, SchedulerRun w fuel scheduler now = some (status, st) →
      (status = run_status_ty.FINISHED → SchedulerIsEmpty st.sched = true) ∧
      (status = run_status_ty.STOPPED →
        st.sched.to_stop = true ∧ 1 ≤ SchedulerSize st.sched)) ∧
    (SchedulerIsEmpty scheduler = true →
      SchedulerRun w fuel scheduler now =
        some (run_status_ty.FINISHED,
          { sched := scheduler, now := now, iter := 0, trace := [] })) := by
  constructor
  · intro status st h
    obtain ⟨h1, h2⟩ := SchedulerRun_loop_status w fuel _ status st h
    constructor
    · intro hs
      simp [SchedulerIsEmpty, PqueueIsEmpty, h1 hs]
    · intro hs
      obtain ⟨h3, h4⟩ := h2 hs
      refine ⟨h3, ?_⟩
      cases hq : st.sched.tasks with
      | nil => exact absurd hq h4
      | cons t q => simp [SchedulerSize, PqueueSize, hq]
  · intro he
    have hc : SchedulerRun_cond
        { sched := scheduler, now := now, iter := 0, trace := [] } = false := by
      simp [SchedulerRun_cond, he]
    unfold SchedulerRun
    rw [SchedulerRun_loop_exit w fuel _ hc]
    simp [SchedulerRun_exit, he]

/-- Witness of C7: an empty scheduler whose stop flag is set. -/
theorem C7_exit_status_witness :
    ((run_status_ty.FINISHED = run_status_ty.FINISHED →
        SchedulerIsEmpty s_empty_stopped = true) ∧
      (run_status_ty.FINISHED = run_status_ty.STOPPED →
        s_empty_stopped.to_stop = true ∧ 1 ≤ SchedulerSize s_empty_stopped)) ∧
    SchedulerRun w_done 0 s_empty_stopped 5 =
      some (run_status_ty.FINISHED,
        { sched := s_empty_stopped, now := 5, iter := 0, trace := [] }) :=
  ⟨(C7_exit_status w_done 0 s_empty_stopped 5).1 run_status_ty.FINISHED
      { sched := s_empty_stopped, now := 5, iter := 0, trace := [] } rfl,
    (C7_exit_status w_done 0 s_empty_stopped 5).2 rfl⟩


/-! ## `SchedulerRemove` -/

/-- What `SchedulerRemove` does once the assertions are out of the way. -/
theorem SchedulerRemove_body_contract (scheduler : scheduler_ty) (uid : ilrd_uid_ty) :
    ∃ status after, SchedulerRemove_body scheduler uid = (status, after) ∧
      (status = status_ty.SUCCESS ↔
        uid ≠ UIDGetBadUID ∧ ∃ t ∈ scheduler.tasks, TaskGetUid t = uid) ∧
      (status = status_ty.SUCCESS →
        ∃ l1 t l2, scheduler.tasks = l1 ++ t :: l2 ∧ TaskGetUid t = uid ∧
          (∀ x ∈ l1, TaskGetUid x ≠ uid) ∧ after.tasks = l1 ++ l2 ∧
          SchedulerSize after + 1 = SchedulerSize scheduler ∧
          after.to_stop = scheduler.to_stop) ∧
      (status = status_ty.FAILURE → after = scheduler) := by
  by_cases hbad : uid = UIDGetBadUID
  · refine ⟨status_ty.FAILURE, scheduler, ?_, ?_, ?_, fun _ => rfl⟩
    · simp [SchedulerRemove_body, UIDIsEqual, hbad]
    · simp [hbad]
    · intro h; cases h
  · have hne : UIDIsEqual UIDGetBadUID uid = false := by
      simp [UIDIsEqual]; exact fun h => hbad h.symm
    by_cases hex : ∃ t ∈ scheduler.tasks, TaskGetUid t = uid
    · obtain ⟨l1, t, l2, h1, h2, h3, h4⟩ := PqueueErase_match uid scheduler.tasks hex
      refine ⟨status_ty.SUCCESS, { scheduler with tasks := l1 ++ l2 }, ?_, ?_, ?_, ?_⟩
      · simp [SchedulerRemove_body, hne, h4]
      · simp [hbad, hex]
      · intro _
        exact ⟨l1, t, l2, h1, h2, h3, rfl, by simp [SchedulerSize, PqueueSize, h1]; omega, rfl⟩
      · intro h; cases h
    · have hno : ∀ t ∈ scheduler.tasks, TaskGetUid t ≠ uid := by
        intro t ht htu; exact hex ⟨t, ht, htu⟩
      refine ⟨status_ty.FAILURE, scheduler, ?_, ?_, ?_, fun _ => rfl⟩
      · simp [SchedulerRemove_body, hne, PqueueErase_no_match uid scheduler.tasks hno]
      · simp [hex]
      · intro h; cases h

theorem SchedulerRemove_release (scheduler : scheduler_ty) (uid : ilrd_uid_ty) :
    SchedulerRemove true scheduler uid = some (SchedulerRemove_body scheduler uid) := by
  simp [SchedulerRemove, c_assert]

theorem SchedulerRemove_debug (scheduler : scheduler_ty) (uid : ilrd_uid_ty) :
    SchedulerRemove false scheduler uid = none := by
  simp [SchedulerRemove, c_assert, function_address]

/-- C8 (fails on the code when assertions are compiled in). The identifier 2 is not the
sentinel and is pending in `s_three`, yet `SchedulerRemove` does not return SUCCESS: the
assertion of line 106 fails and the call aborts. With the assertions compiled out the
claim holds for every scheduler and identifier: the call returns SUCCESS if and only if
the identifier is not the sentinel and some pending task has it, on SUCCESS the first
task with that identifier is removed and nothing else changes, on FAILURE the
scheduler is unchanged. -/
theorem C8_remove_aborts_on_pending_uid :
    (2 ≠ UIDGetBadUID ∧ ∃ t ∈ s_three.tasks, TaskGetUid t = 2) ∧
    SchedulerRemove false s_three 2 = none ∧
    ∀ (scheduler : scheduler_ty) (uid : ilrd_uid_ty),
      ∃ status after, SchedulerRemove true scheduler uid = some (status, after) ∧
        (status = status_ty.SUCCESS ↔
          uid ≠ UIDGetBadUID ∧ ∃ t ∈ scheduler.tasks, TaskGetUid t = uid) ∧
        (status = status_ty.SUCCESS →
          ∃ l1 t l2, scheduler.tasks = l1 ++ t :: l2 ∧ TaskGetUid t = uid ∧
            (∀ x ∈ l1, TaskGetUid x ≠ uid) ∧ after.tasks = l1 ++ l2 ∧
            SchedulerSize after + 1 = SchedulerSize scheduler ∧
            after.to_stop = scheduler.to_stop) ∧
        (status = status_ty.FAILURE → after = scheduler) := by
  refine ⟨⟨by decide, task_at 2 101, by decide, rfl⟩, rfl, ?_⟩
  intro scheduler uid
  obtain ⟨status, after, h1, h2⟩ := SchedulerRemove_body_contract scheduler uid
  exact ⟨status, after, by rw [SchedulerRemove_release, h1], h2⟩

/-- C9 as stated fails: on the empty scheduler `SchedulerRemove`, compiled with its
assertions, does not return FAILURE; the assertion of line 106 aborts the call. -/
theorem C9_counterexample :
    SchedulerIsEmpty SchedulerCreate = true ∧
    SchedulerRemove false SchedulerCreate 1 ≠ some (status_ty.FAILURE, SchedulerCreate) := by
  decide

/-- C9, amended. On a scheduler whose queue is empty, `SchedulerRemove` compiled without
assertions (`NDEBUG`) returns FAILURE and leaves the scheduler unchanged; compiled with
assertions the call does not return, the assertion of line 106 fails. -/
theorem C9_remove_on_empty (scheduler : scheduler_ty) (uid : ilrd_uid_ty)
    (hempty : SchedulerIsEmpty scheduler = true) :
    SchedulerRemove true scheduler uid = some (status_ty.FAILURE, scheduler) ∧
    SchedulerRemove false scheduler uid = none := by
  refine ⟨?_, SchedulerRemove_debug scheduler uid⟩
  have hq : scheduler.tasks = [] := by
    simpa [SchedulerIsEmpty, PqueueIsEmpty] using hempty
  rw [SchedulerRemove_release]
  by_cases hbad : UIDGetBadUID = uid
  · simp [SchedulerRemove_body, UIDIsEqual, hbad]
  · simp [SchedulerRemove_body, UIDIsEqual, hbad, hq, PqueueErase]
    rw [← hq]

/-- Witness of the amended C9: the newly created scheduler. -/
theorem C9_remove_on_empty_witness :
    SchedulerRemove true SchedulerCreate 1 = some (status_ty.FAILURE, SchedulerCreate) ∧
    SchedulerRemove false SchedulerCreate 1 = none :=
  C9_remove_on_empty SchedulerCreate 1 rfl

theorem SchedulerAdd_success (scheduler : scheduler_ty) (operation_func interval param : Nat)
    (now : Int) (new_uid : Option ilrd_uid_ty) (alloc_ok : Bool) (id : ilrd_uid_ty)
    (after : scheduler_ty)
    (hadd : SchedulerAdd scheduler operation_func interval param now new_uid alloc_ok =
      (id, after))
    (hok : id ≠ UIDGetBadUID) :
    new_uid = some id ∧ alloc_ok = true ∧
    after = { scheduler with
      tasks := PqueueInsert SortTasks
        { uid := id, operation_func := operation_func, interval := interval,
          time_to_run := now, param := param } scheduler.tasks } := by
  cases new_uid with
  | none =>
    simp [SchedulerAdd, TaskCreate] at hadd
    exact absurd hadd.1.symm hok
  | some u =>
    by_cases hu : u = UIDGetBadUID
    · simp [SchedulerAdd, TaskCreate, UIDIsEqual, hu] at hadd
      exact absurd hadd.1.symm hok
    · cases alloc_ok with
      | false =>
        simp [SchedulerAdd, TaskCreate, UIDIsEqual, hu, PqueueEnqueue] at hadd
        exact absurd hadd.1.symm hok
      | true =>
        simp [SchedulerAdd, TaskCreate, UIDIsEqual, hu, PqueueEnqueue, TaskGetUid] at hadd
        obtain ⟨h1, h2⟩ := hadd
        subst h1
        exact ⟨rfl, rfl, h2.symm⟩

/-- C10 as stated fails: after a successful `SchedulerAdd` on the newly created scheduler,
`SchedulerRemove` compiled with its assertions does not answer SUCCESS to the first
removal and FAILURE to the second. -/
theorem C10_counterexample :
    (pending_uids SchedulerCreate).Nodup ∧
    (SchedulerAdd SchedulerCreate 0 0 0 100 (some 1) true).1 = 1 ∧
    (1 : ilrd_uid_ty) ≠ UIDGetBadUID ∧
    ¬ (SchedulerRemove false (SchedulerAdd SchedulerCreate 0 0 0 100 (some 1) true).2 1 =
          some (status_ty.SUCCESS, SchedulerCreate) ∧
        SchedulerRemove false SchedulerCreate 1 =
          some (status_ty.FAILURE, SchedulerCreate)) := by
  decide

/-- C10, amended. For a scheduler whose pending identifiers are pairwise distinct and an
identifier service that delivers an identifier not yet pending, after a successful
`SchedulerAdd` returning `id` the pending identifiers are still pairwise distinct, and
with the assertions compiled out (`NDEBUG`) the first `SchedulerRemove` of `id` returns
SUCCESS and restores the scheduler to what it was before the add, and the second returns
FAILURE and changes nothing. With the assertions compiled in, the second call on a queue
that the first removal emptied fails the assertion of line 106. -/
theorem C10_add_remove_remove (scheduler : scheduler_ty)
    (operation_func interval param : Nat) (now : Int) (new_uid : Option ilrd_uid_ty)
    (alloc_ok : Bool) (id : ilrd_uid_ty) (after : scheduler_ty)
    (hunique : (pending_uids scheduler).Nodup)
    (hfresh : ∀ u, new_uid = some u → u ∉ pending_uids scheduler)
    (hadd : SchedulerAdd scheduler operation_func interval param now new_uid alloc_ok =
      (id, after))
    (hok : id ≠ UIDGetBadUID) :
    (pending_uids after).Nodup ∧
    SchedulerRemove true after id = some (status_ty.SUCCESS, scheduler) ∧
    SchedulerRemove true scheduler id = some (status_ty.FAILURE, scheduler) ∧
    (SchedulerIsEmpty scheduler = true → SchedulerRemove false scheduler id = none) := by
  obtain ⟨h1, _, h3⟩ := SchedulerAdd_success scheduler operation_func interval param now
    new_uid alloc_ok id after hadd hok
  have hnot : ∀ t ∈ scheduler.tasks, TaskGetUid t ≠ id := by
    intro t ht heq
    exact hfresh id h1 (by rw [← heq]; exact List.mem_map_of_mem _ ht)
  have hne : UIDIsEqual UIDGetBadUID id = false := by
    simp [UIDIsEqual]; exact fun h => hok h.symm
  refine ⟨?_, ?_, ?_, fun _ => SchedulerRemove_debug scheduler id⟩
  · rw [h3]
    have hp := (PqueueInsert_perm SortTasks
      { uid := id, operation_func := operation_func, interval := interval,
        time_to_run := now, param := param } scheduler.tasks).map TaskGetUid
    refine (List.Perm.nodup_iff hp).mpr ?_
    simp only [List.map_cons, List.nodup_cons]
    exact ⟨hfresh id h1, hunique⟩
  · rw [SchedulerRemove_release, h3]
    have he := PqueueErase_insert SortTasks
      { uid := id, operation_func := operation_func, interval := interval,
        time_to_run := now, param := param } scheduler.tasks hnot
    simp only [TaskGetUid] at he
    simp [SchedulerRemove_body, hne, he]
  · rw [SchedulerRemove_release]
    simp [SchedulerRemove_body, hne, PqueueErase_no_match id scheduler.tasks hnot]

/-- Witness of the amended C10: a fourth task is added to `s_three` and removed. -/
theorem C10_add_remove_remove_witness :
    (pending_uids (SchedulerAdd s_three 9 5 0 200 (some 4) true).2).Nodup ∧
    SchedulerRemove true (SchedulerAdd s_three 9 5 0 200 (some 4) true).2 4 =
      some (status_ty.SUCCESS, s_three) ∧
    SchedulerRemove true s_three 4 = some (status_ty.FAILURE, s_three) ∧
    (SchedulerIsEmpty s_three = true → SchedulerRemove false s_three 4 = none) :=
  C10_add_remove_remove s_three 9 5 0 200 (some 4) true 4
    (SchedulerAdd s_three 9 5 0 200 (some 4) true).2 (by decide) (by decide) rfl (by decide)

/-! ## Runs cut short after a number of iterations -/

theorem SchedulerRun_body_cases (w : world_ty) (st : run_state) (task : task_ty)
    (rest : p_queue_ty) :
    (step_state (SchedulerRun_body w st task rest)).trace =
        st.trace ++ [exec_of w st task rest] ∧
      (step_state (SchedulerRun_body w st task rest)).iter = st.iter + 1 ∧
      (step_state (SchedulerRun_body w st task rest)).sched.to_stop = st.sched.to_stop ∧
      (step_state (SchedulerRun_body w st task rest)).now =
        wait_until_due w st task + w.lag_run st.iter ∧
      ((w.result st.iter task = oper_ret_ty.NOT_DONE ∧ w.alloc_ok st.iter = true ∧
          (step_state (SchedulerRun_body w st task rest)).sched.tasks =
            PqueueInsert SortTasks
              (TaskSetTimeToRun task (wait_until_due w st task + w.lag_run st.iter)) rest) ∨
        (¬ (w.result st.iter task = oper_ret_ty.NOT_DONE ∧ w.alloc_ok st.iter = true) ∧
          (step_state (SchedulerRun_body w st task rest)).sched.tasks = rest)) := by
  cases hr : w.result st.iter task with
  | DONE =>
    rw [SchedulerRun_body_done w st task rest hr]
    exact ⟨rfl, rfl, rfl, rfl, Or.inr ⟨by simp, rfl⟩⟩
  | FAILURE =>
    rw [SchedulerRun_body_failure w st task rest hr]
    exact ⟨rfl, rfl, rfl, rfl, Or.inr ⟨by simp, rfl⟩⟩
  | NOT_DONE =>
    cases ha : w.alloc_ok st.iter with
    | true =>
      rw [SchedulerRun_body_not_done_ok w st task rest hr ha]
      exact ⟨rfl, rfl, rfl, rfl, Or.inl ⟨rfl, rfl, rfl⟩⟩
    | false =>
      rw [SchedulerRun_body_not_done_fail w st task rest hr ha]
      exact ⟨rfl, rfl, rfl, rfl, Or.inr ⟨by simp, rfl⟩⟩

theorem SchedulerRun_upto_induction (w : world_ty) (P : run_state → run_state → Prop)
    (hrefl : ∀ st, P st st)
    (hstep : ∀ (st : run_state) (task : task_ty) (rest : p_queue_ty) (st3 : run_state),
      st.sched.tasks = task :: rest → st.sched.to_stop = false →
      P (step_state (SchedulerRun_body w st task rest)) st3 → P st st3) :
    ∀ (n : Nat) (st : run_state), P st (SchedulerRun_upto w n st) := by
  intro n
  induction n with
  | zero => intro st; exact hrefl st
  | succ n ih =>
    intro st
    cases hc : SchedulerRun_cond st with
    | false => simp only [SchedulerRun_upto, hc]; exact hrefl st
    | true =>
      obtain ⟨hne, hs⟩ := (SchedulerRun_cond_eq st).mp hc
      cases hq : st.sched.tasks with
      | nil => exact absurd hq hne
      | cons t q =>
        simp only [SchedulerRun_upto, hc, hq, PqueueDequeue, if_true]
        cases hb : SchedulerRun_body w st t q with
        | next st1 =>
          refine hstep st t q _ hq hs ?_
          rw [hb]
          exact ih st1
        | ret status st1 =>
          refine hstep st t q _ hq hs ?_
          rw [hb]
          exact hrefl st1

theorem SchedulerRun_loop_upto (w : world_ty) :
    ∀ (fuel : Nat) (st : run_state) (status : run_status_ty) (st1 : run_state),
      SchedulerRun_loop w fuel st = some (status, st1) →
      SchedulerRun_upto w fuel st = st1 := by
  intro fuel
  induction fuel with
  | zero =>
    intro st status st1 h
    cases hc : SchedulerRun_cond st with
    | true => simp [SchedulerRun_loop, hc] at h
    | false =>
      rw [SchedulerRun_loop_exit w 0 st hc] at h
      simp only [Option.some.injEq, Prod.mk.injEq] at h
      simp [SchedulerRun_upto, h.2]
  | succ fuel ih =>
    intro st status st1 h
    cases hc : SchedulerRun_cond st with
    | false =>
      rw [SchedulerRun_loop_exit w _ st hc] at h
      simp only [Option.some.injEq, Prod.mk.injEq] at h
      rw [← h.2]
      simp [SchedulerRun_upto, hc]
    | true =>
      obtain ⟨hne, hs⟩ := (SchedulerRun_cond_eq st).mp hc
      cases hq : st.sched.tasks with
      | nil => exact absurd hq hne
      | cons t q =>
        rw [SchedulerRun_loop_step w fuel st t q hq hs] at h
        simp only [SchedulerRun_upto, hc, hq, PqueueDequeue, if_true]
        cases hb : SchedulerRun_body w st t q with
        | next st2 =>
          rw [hb] at h
          exact ih st2 status st1 h
        | ret status2 st2 =>
          rw [hb] at h
          simp only [Option.some.injEq, Prod.mk.injEq] at h
          exact h.2

theorem SchedulerClear_noop (fuel : Nat) (scheduler : scheduler_ty) :
    SchedulerClear fuel scheduler = some scheduler := by
  cases fuel <;> simp [SchedulerClear, function_address]

/-! ## `SchedulerAdd`, `SchedulerClear`, a failing reinsertion and the comparator -/

theorem PqueueInsert_sublist (cmp : task_ty → task_ty → Int) (x : task_ty) (q : p_queue_ty) :
    List.Sublist q (PqueueInsert cmp x q) := by
  induction q with
  | nil => simp [PqueueInsert]
  | cons y q ih =>
    unfold PqueueInsert
    split
    · exact List.sublist_cons_self _ _
    · exact List.Sublist.cons₂ y ih

theorem TaskCreate_some (operation_func interval : Nat) (now : Int) (param : Nat)
    (new_uid : Option ilrd_uid_ty) (t : task_ty)
    (h : TaskCreate operation_func interval now param new_uid = some t) :
    new_uid = some (TaskGetUid t) ∧ TaskGetUid t ≠ UIDGetBadUID ∧
      t.operation_func = operation_func ∧ t.interval = interval ∧
      TaskGetTimeToRun t = now ∧ t.param = param := by
  cases new_uid with
  | none => simp [TaskCreate] at h
  | some u =>
    by_cases hu : u = UIDGetBadUID
    · simp [TaskCreate, UIDIsEqual, hu] at h
    · simp [TaskCreate, UIDIsEqual, hu] at h
      subst h
      exact ⟨rfl, hu, rfl, rfl, rfl, rfl⟩

/-- C11. `SchedulerAdd` with a callable operation. When `TaskCreate` delivers a task and
`PqueueEnqueue` can allocate, the call returns the identifier of the new task, which is
not the sentinel, the new task carries the given operation, interval and argument and is
due at the current time, the queue afterwards is the old queue with the new task
inserted (the same tasks plus that one, the old ones in their old order, the size one
more), and the stop flag is unchanged. When `TaskCreate` fails or `PqueueEnqueue` cannot
allocate, the call returns the sentinel and the scheduler, queue and stop flag, is
unchanged. -/
theorem C11_add_contract (scheduler : scheduler_ty) (operation_func interval param : Nat)
    (now : Int) (new_uid : Option ilrd_uid_ty) (alloc_ok : Bool) :
    (∀ new_task, TaskCreate operation_func interval now param new_uid = some new_task →
      alloc_ok = true →
      SchedulerAdd scheduler operation_func interval param now new_uid alloc_ok =
          (TaskGetUid new_task,
            { scheduler with tasks := PqueueInsert SortTasks new_task scheduler.tasks }) ∧
        TaskGetUid new_task ≠ UIDGetBadUID ∧
        new_task.operation_func = operation_func ∧ new_task.interval = interval ∧
        new_task.param = param ∧ TaskGetTimeToRun new_task = now ∧
        List.Perm (PqueueInsert SortTasks new_task scheduler.tasks)
          (new_task :: scheduler.tasks) ∧
        List.Sublist scheduler.tasks (PqueueInsert SortTasks new_task scheduler.tasks) ∧
        SchedulerSize
            (SchedulerAdd scheduler operation_func interval param now new_uid alloc_ok).2 =
          SchedulerSize scheduler + 1 ∧
        (SchedulerAdd scheduler operation_func interval param now new_uid alloc_ok).2.to_stop =
          scheduler.to_stop) ∧
    ((TaskCreate operation_func interval now param new_uid = none ∨ alloc_ok = false) →
      SchedulerAdd scheduler operation_func interval param now new_uid alloc_ok =
        (UIDGetBadUID, scheduler)) := by
  constructor
  · intro new_task hc ha
    obtain ⟨_, h2, h3, h4, h5, h6⟩ := TaskCreate_some _ _ _ _ _ _ hc
    have hadd : SchedulerAdd scheduler operation_func interval param now new_uid alloc_ok =
        (TaskGetUid new_task,
          { scheduler with tasks := PqueueInsert SortTasks new_task scheduler.tasks }) := by
      simp [SchedulerAdd, hc, ha, PqueueEnqueue]
    refine ⟨hadd, h2, h3, h4, h6, h5, PqueueInsert_perm _ _ _, PqueueInsert_sublist _ _ _, ?_,
      ?_⟩
    · rw [hadd]; simp [SchedulerSize, PqueueSize, PqueueInsert_length]
    · rw [hadd]
  · intro h
    rcases h with h | h
    · simp [SchedulerAdd, h]
    · cases hc : TaskCreate operation_func interval now param new_uid with
      | none => simp [SchedulerAdd, hc]
      | some t => simp [SchedulerAdd, hc, h, PqueueEnqueue]

/-- Witness of C11: a fourth task is added to `s_three` at time 200; and the same call
when `PqueueEnqueue` cannot allocate. -/
theorem C11_add_contract_witness :
    (SchedulerAdd s_three 9 5 8 200 (some 4) true =
        (TaskGetUid t_fourth,
          { s_three with tasks := PqueueInsert SortTasks t_fourth s_three.tasks }) ∧
      TaskGetUid t_fourth ≠ UIDGetBadUID) ∧
    SchedulerAdd s_three 9 5 8 200 (some 4) false = (UIDGetBadUID, s_three) :=
  ⟨⟨((C11_add_contract s_three 9 5 8 200 (some 4) true).1 t_fourth rfl rfl).1,
      ((C11_add_contract s_three 9 5 8 200 (some 4) true).1 t_fourth rfl rfl).2.1⟩,
    (C11_add_contract s_three 9 5 8 200 (some 4) false).2 (Or.inr rfl)⟩

/-- C12 (fails on the code). `SchedulerClear` on a scheduler with three pending tasks
returns with the three tasks still pending: `SchedulerSize` is 3 and `SchedulerIsEmpty`
is false afterwards. The condition of the loop of line 199 negates the address of
`SchedulerIsEmpty` instead of calling it, so the body of the loop never runs and
`SchedulerClear` leaves every scheduler as it was. -/
theorem C12_clear_leaves_queue :
    SchedulerClear 3 s_three = some s_three ∧
    SchedulerSize s_three = 3 ∧ SchedulerIsEmpty s_three = false ∧
    ∀ (fuel : Nat) (scheduler : scheduler_ty),
      SchedulerClear fuel scheduler = some scheduler :=
  ⟨rfl, rfl, rfl, SchedulerClear_noop⟩

theorem SchedulerRun_loop_dropped (w : world_ty) :
    ∀ (fuel : Nat) (st : run_state) (status : run_status_ty) (st1 : run_state),
      SchedulerRun_loop w fuel st = some (status, st1) →
      ∃ d, st1.trace = st.trace ++ d ∧
        ∀ (k : Nat) (e : exec_ty), d[k]? = some e → e.ret = oper_ret_ty.NOT_DONE →
          w.alloc_ok (st.iter + k) = false →
          status = run_status_ty.SCH_FAILURE ∧ k + 1 = d.length ∧
            st1.sched.tasks = e.rest := by
  intro fuel
  induction fuel with
  | zero =>
    intro st status st1 h
    cases hc : SchedulerRun_cond st with
    | true => simp [SchedulerRun_loop, hc] at h
    | false =>
      rw [SchedulerRun_loop_exit w 0 st hc] at h
      simp only [Option.some.injEq, Prod.mk.injEq] at h
      exact ⟨[], by simp [← h.2], by simp⟩
  | succ fuel ih =>
    intro st status st1 h
    cases hc : SchedulerRun_cond st with
    | false =>
      rw [SchedulerRun_loop_exit w _ st hc] at h
      simp only [Option.some.injEq, Prod.mk.injEq] at h
      exact ⟨[], by simp [← h.2], by simp⟩
    | true =>
      obtain ⟨hne, hs⟩ := (SchedulerRun_cond_eq st).mp hc
      cases hq : st.sched.tasks with
      | nil => exact absurd hq hne
      | cons t q =>
        rw [SchedulerRun_loop_step w fuel st t q hq hs] at h
        have cont : ∀ st2 : run_state, st2.trace = st.trace ++ [exec_of w st t q] →
            st2.iter = st.iter + 1 →
            ¬ (w.result st.iter t = oper_ret_ty.NOT_DONE ∧ w.alloc_ok st.iter = false) →
            SchedulerRun_loop w fuel st2 = some (status, st1) →
            ∃ d, st1.trace = st.trace ++ d ∧
              ∀ (k : Nat) (e : exec_ty), d[k]? = some e → e.ret = oper_ret_ty.NOT_DONE →
                w.alloc_ok (st.iter + k) = false →
                status = run_status_ty.SCH_FAILURE ∧ k + 1 = d.length ∧
                  st1.sched.tasks = e.rest := by
          intro st2 htr hit hno h2
          obtain ⟨d, hd1, hd2⟩ := ih st2 status st1 h2
          refine ⟨exec_of w st t q :: d, by rw [hd1, htr]; simp, ?_⟩
          intro k e hk hnd hal
          cases k with
          | zero =>
            simp only [List.getElem?_cons_zero, Option.some.injEq] at hk
            rw [← hk] at hnd
            exact absurd ⟨hnd, by simpa using hal⟩ hno
          | succ k =>
            simp only [List.getElem?_cons_succ] at hk
            have hal2 : w.alloc_ok (st2.iter + k) = false := by
              rw [hit]
              have : st.iter + 1 + k = st.iter + (k + 1) := by omega
              rw [this]; exact hal
            obtain ⟨a, b, c⟩ := hd2 k e hk hnd hal2
            exact ⟨a, by simp [b], c⟩
        have stop1 : ∀ k (e : exec_ty), [exec_of w st t q][k]? = some e →
            k = 0 ∧ e = exec_of w st t q := by
          intro k e hk
          cases k with
          | zero => simp at hk; exact ⟨rfl, hk.symm⟩
          | succ k => simp at hk
        cases hr : w.result st.iter t with
        | DONE =>
          rw [SchedulerRun_body_done w st t q hr] at h
          exact cont _ rfl rfl (by simp [hr]) h
        | FAILURE =>
          rw [SchedulerRun_body_failure w st t q hr] at h
          simp only [Option.some.injEq, Prod.mk.injEq] at h
          refine ⟨[exec_of w st t q], by simp [← h.2], ?_⟩
          intro k e hk hnd _
          obtain ⟨_, he⟩ := stop1 k e hk
          rw [he] at hnd
          simp [exec_of, hr] at hnd
        | NOT_DONE =>
          cases ha : w.alloc_ok st.iter with
          | true =>
            rw [SchedulerRun_body_not_done_ok w st t q hr ha] at h
            exact cont _ rfl rfl (by simp [ha]) h
          | false =>
            rw [SchedulerRun_body_not_done_fail w st t q hr ha] at h
            simp only [Option.some.injEq, Prod.mk.injEq] at h
            refine ⟨[exec_of w st t q], by simp [← h.2], ?_⟩
            intro k e hk _ _
            obtain ⟨hk0, he⟩ := stop1 k e hk
            rw [hk0, he, ← h.1, ← h.2]
            exact ⟨rfl, rfl, rfl⟩

/-- C13. First part: when the task at the head of the queue returns NOT_DONE and
`PqueueEnqueue` fails, the loop of `SchedulerRun` returns SCH_FAILURE, which is not
FUNC_FAILURE, in that iteration, the trace grows by that one execution, and the queue
afterwards is exactly the rest of the queue, every other task unchanged; when the
pending identifiers are pairwise distinct, no pending task has the identifier of the
dropped task. Second part: in every run that returns, an execution that returned
NOT_DONE and whose reinsertion failed is the last execution of the run, the run returns
SCH_FAILURE, and the queue on return is the queue that was left when the task was
dequeued. -/
theorem C13_reinsertion_failure (w : world_ty) (fuel : Nat) :
    (∀ (st : run_state) (task : task_ty) (rest : p_queue_ty),
      st.sched.tasks = task :: rest → st.sched.to_stop = false →
      w.result st.iter task = oper_ret_ty.NOT_DONE → w.alloc_ok st.iter = false →
      ∃ st1, SchedulerRun_loop w (fuel + 1) st = some (run_status_ty.SCH_FAILURE, st1) ∧
        run_status_ty.SCH_FAILURE ≠ run_status_ty.FUNC_FAILURE ∧
        st1.trace = st.trace ++ [exec_of w st task rest] ∧
        st1.sched.tasks = rest ∧
        st1.sched.to_stop = st.sched.to_stop ∧
        ((pending_uids st.sched).Nodup →
          ∀ t ∈ st1.sched.tasks, TaskGetUid t ≠ TaskGetUid task)) ∧
    (∀ (scheduler : scheduler_ty) (now : Int) (status : run_status_ty) (st1 : run_state),
      SchedulerRun w fuel scheduler now = some (status, st1) →
      ∀ (k : Nat) (e : exec_ty), st1.trace[k]? = some e →
        e.ret = oper_ret_ty.NOT_DONE → w.alloc_ok k = false →
        status = run_status_ty.SCH_FAILURE ∧ k + 1 = st1.trace.length ∧
          st1.sched.tasks = e.rest) := by
  constructor
  · intro st task rest hq hs hr ha
    rw [SchedulerRun_loop_step w fuel st task rest hq hs,
      SchedulerRun_body_not_done_fail w st task rest hr ha]
    refine ⟨_, rfl, by decide, rfl, rfl, rfl, ?_⟩
    intro hnd t ht heq
    simp only [pending_uids, hq, List.map_cons, List.nodup_cons] at hnd
    exact hnd.1 (by rw [← heq]; exact List.mem_map_of_mem _ ht)
  · intro scheduler now status st1 h k e hk hnd hal
    obtain ⟨d, hd1, hd2⟩ := SchedulerRun_loop_dropped w fuel _ status st1 h
    simp only [List.nil_append] at hd1
    rw [hd1] at hk ⊢
    exact hd2 k e hk hnd (by simpa using hal)

/-- Witness of C13: in `w_always_retry` the third reinsertion fails. -/
theorem C13_reinsertion_failure_witness :
    (∃ st1, SchedulerRun_loop w_always_retry (0 + 1) st_dropping =
        some (run_status_ty.SCH_FAILURE, st1) ∧
      run_status_ty.SCH_FAILURE ≠ run_status_ty.FUNC_FAILURE ∧
      st1.trace = st_dropping.trace ++
        [exec_of w_always_retry st_dropping (task_at 1 102) [task_at 2 105]] ∧
      st1.sched.tasks = [task_at 2 105] ∧
      st1.sched.to_stop = st_dropping.sched.to_stop ∧
      ((pending_uids st_dropping.sched).Nodup →
        ∀ t ∈ st1.sched.tasks, TaskGetUid t ≠ TaskGetUid (task_at 1 102))) ∧
    (run_status_ty.SCH_FAILURE = run_status_ty.SCH_FAILURE ∧
      2 + 1 = st_two_dropped.trace.length ∧
      st_two_dropped.sched.tasks = e_dropped.rest) :=
  ⟨(C13_reinsertion_failure w_always_retry 0).1 st_dropping (task_at 1 102) [task_at 2 105]
      rfl rfl rfl rfl,
    (C13_reinsertion_failure w_always_retry 5).2 s_two 50 run_status_ty.SCH_FAILURE
      st_two_dropped rfl 2 e_dropped rfl rfl rfl⟩

/-- C14 (fails on the code). For a task due at 1000000000 and a task due `3 * 2 ^ 30`
seconds later, `SortTasks` is positive although the first task is the one due earlier,
and negative with the arguments exchanged; for two tasks due `2 ^ 32` seconds apart it
is zero although the due times differ; for two tasks due `2 ^ 31` seconds apart it is
negative in both orders. The narrowing of the difference from `long` to `int` loses the
sign. For due times inside one window of `2 ^ 31` seconds the sign of `SortTasks` is the
order of the due times. -/
theorem C14_comparator_sign_lost :
    SortTasks (task_at 1 1000000000) (task_at 2 4221225472) = 1073741824 ∧
    SortTasks (task_at 2 4221225472) (task_at 1 1000000000) = -1073741824 ∧
    SortTasks (task_at 1 0) (task_at 2 4294967296) = 0 ∧
    SortTasks (task_at 1 0) (task_at 2 2147483648) = -2147483648 ∧
    SortTasks (task_at 2 2147483648) (task_at 1 0) = -2147483648 ∧
    ∀ (lo : Int) (task1 task2 : task_ty),
      lo ≤ TaskGetTimeToRun task1 ∧ TaskGetTimeToRun task1 < lo + 2 ^ 31 →
      lo ≤ TaskGetTimeToRun task2 ∧ TaskGetTimeToRun task2 < lo + 2 ^ 31 →
      (0 < SortTasks task1 task2 ↔ TaskGetTimeToRun task2 < TaskGetTimeToRun task1) ∧
      (SortTasks task1 task2 < 0 ↔ TaskGetTimeToRun task1 < TaskGetTimeToRun task2) ∧
      (SortTasks task1 task2 = 0 ↔ TaskGetTimeToRun task1 = TaskGetTimeToRun task2) := by
  refine ⟨by decide, by decide, by decide, by decide, by decide, ?_⟩
  intro lo task1 task2 h1 h2
  rw [SortTasks_in_window lo task1 task2 h1 h2]
  refine ⟨?_, ?_, ?_⟩ <;> constructor <;> intro h <;> omega

/-! ## Due times -/

theorem SchedulerRun_upto_clock (w : world_ty) :
    ∀ (n : Nat) (st : run_state),
      (∀ e ∈ st.trace, TaskGetTimeToRun e.task ≤ e.clock) →
      ∀ e ∈ (SchedulerRun_upto w n st).trace, TaskGetTimeToRun e.task ≤ e.clock := by
  refine SchedulerRun_upto_induction w
    (fun st st3 => (∀ e ∈ st.trace, TaskGetTimeToRun e.task ≤ e.clock) →
      ∀ e ∈ st3.trace, TaskGetTimeToRun e.task ≤ e.clock) (fun _ h => h) ?_
  intro st task rest st3 _ _ h2 h
  apply h2
  intro e he
  rw [(SchedulerRun_body_cases w st task rest).1] at he
  rcases List.mem_append.mp he with he | he
  · exact h e he
  · rw [List.mem_singleton.mp he]
    exact wait_until_due_ge_due w st task

/-- C15. `SchedulerRun` never executes a task before its due time. First part: in every
iteration the clock value at which the operation is called, the value with which the wait
loop of lines 136-139 is left, is not before the due time of the dequeued task (nor
before the previous reading of the clock), and this is the execution that the iteration
records. Second part: after any number of iterations of any run, every execution so far
was called at a clock value greater than or equal to the due time of its task. Third
part: the same for every run that returns. -/
theorem C15_not_before_due (w : world_ty) :
    (∀ (st : run_state) (task : task_ty) (rest : p_queue_ty),
      TaskGetTimeToRun task ≤ (exec_of w st task rest).clock ∧
      st.now ≤ (exec_of w st task rest).clock ∧
      (step_state (SchedulerRun_body w st task rest)).trace =
        st.trace ++ [exec_of w st task rest]) ∧
    (∀ (n : Nat) (scheduler : scheduler_ty) (now : Int),
      ∀ e ∈ (SchedulerRun_upto w n (run_start scheduler now)).trace,
        TaskGetTimeToRun e.task ≤ e.clock) ∧
    (∀ (fuel : Nat) (scheduler : scheduler_ty) (now : Int) (status : run_status_ty)
        (st1 : run_state),
      SchedulerRun w fuel scheduler now = some (status, st1) →
      ∀ e ∈ st1.trace, TaskGetTimeToRun e.task ≤ e.clock) := by
  refine ⟨?_, ?_, ?_⟩
  · intro st task rest
    exact ⟨wait_until_due_ge_due w st task, wait_until_due_ge_now w st task,
      (SchedulerRun_body_cases w st task rest).1⟩
  · intro n scheduler now
    exact SchedulerRun_upto_clock w n (run_start scheduler now) (by simp [run_start])
  · intro fuel scheduler now status st1 h
    have hp := SchedulerRun_loop_upto w fuel _ status st1 h
    rw [← hp]
    exact SchedulerRun_upto_clock w fuel _ (by simp)

/-- Witness of C15: the run of `s_two` in `w_always_retry`, called at 50. -/
theorem C15_not_before_due_witness :
    ∀ e ∈ st_two_dropped.trace, TaskGetTimeToRun e.task ≤ e.clock :=
  (C15_not_before_due w_always_retry).2.2 5 s_two 50 run_status_ty.SCH_FAILURE
    st_two_dropped rfl

theorem PqueueErase_sublist (is_match : task_ty → ilrd_uid_ty → Bool) (uid : ilrd_uid_ty) :
    ∀ q : p_queue_ty, List.Sublist (PqueueErase is_match uid q).2 q := by
  intro q
  induction q with
  | nil => simp [PqueueErase]
  | cons y q ih =>
    unfold PqueueErase
    split
    · exact List.sublist_cons_self _ _
    · exact List.Sublist.cons₂ y ih

theorem SchedulerRemove_body_sublist (scheduler : scheduler_ty) (uid : ilrd_uid_ty) :
    List.Sublist (SchedulerRemove_body scheduler uid).2.tasks scheduler.tasks ∧
      (SchedulerRemove_body scheduler uid).2.to_stop = scheduler.to_stop := by
  have hs := PqueueErase_sublist MatchUIDs uid scheduler.tasks
  unfold SchedulerRemove_body
  simp only []
  split
  · split
    · rename_i h
      rw [h] at hs
      exact ⟨hs, rfl⟩
    · rename_i h
      rw [h] at hs
      exact ⟨hs, rfl⟩
  · exact ⟨List.Sublist.refl _, rfl⟩

theorem SchedulerRemove_sublist (NDEBUG : Bool) (scheduler : scheduler_ty)
    (uid : ilrd_uid_ty) (status : status_ty) (after : scheduler_ty)
    (h : SchedulerRemove NDEBUG scheduler uid = some (status, after)) :
    List.Sublist after.tasks scheduler.tasks ∧ after.to_stop = scheduler.to_stop := by
  unfold SchedulerRemove at h
  split at h
  · simp only [Option.some.injEq] at h
    have hb := SchedulerRemove_body_sublist scheduler uid
    rw [h] at hb
    exact hb
  · cases h

theorem SchedulerAdd_tasks (scheduler : scheduler_ty) (operation_func interval param : Nat)
    (now : Int) (new_uid : Option ilrd_uid_ty) (alloc_ok : Bool) :
    (SchedulerAdd scheduler operation_func interval param now new_uid alloc_ok).2 =
        scheduler ∨
      ∃ new_task, TaskCreate operation_func interval now param new_uid = some new_task ∧
        (SchedulerAdd scheduler operation_func interval param now new_uid alloc_ok).2 =
          { scheduler with tasks := PqueueInsert SortTasks new_task scheduler.tasks } := by
  cases hc : TaskCreate operation_func interval now param new_uid with
  | none => left; simp [SchedulerAdd, hc]
  | some t =>
    cases alloc_ok with
    | false => left; simp [SchedulerAdd, hc, PqueueEnqueue]
    | true => right; exact ⟨t, rfl, by simp [SchedulerAdd, hc, PqueueEnqueue]⟩

theorem SchedulerRun_body_due (w : world_ty) (st : run_state) (task : task_ty)
    (rest : p_queue_ty) :
    ∀ t ∈ (step_state (SchedulerRun_body w st task rest)).sched.tasks,
      t ∈ rest ∨
        (w.result st.iter task = oper_ret_ty.NOT_DONE ∧
          t = TaskSetTimeToRun task (step_state (SchedulerRun_body w st task rest)).now ∧
          TaskGetTimeToRun task ≤ TaskGetTimeToRun t ∧ st.now ≤ TaskGetTimeToRun t) := by
  intro t ht
  obtain ⟨_, _, _, hnow, hcase⟩ := SchedulerRun_body_cases w st task rest
  rcases hcase with ⟨hr, _, hq⟩ | ⟨_, hq⟩
  · rw [hq] at ht
    rcases (PqueueInsert_mem _ _ _ _).mp ht with h | h
    · right
      have h1 := wait_until_due_ge_due w st task
      have h2 := wait_until_due_ge_now w st task
      refine ⟨hr, by rw [hnow]; exact h, ?_, ?_⟩
      · rw [h]; simp only [TaskGetTimeToRun, TaskSetTimeToRun]
        simp only [TaskGetTimeToRun] at h1
        omega
      · rw [h]; simp only [TaskGetTimeToRun, TaskSetTimeToRun]
        omega
    · exact Or.inl h
  · rw [hq] at ht
    exact Or.inl ht

theorem SchedulerRun_upto_due (w : world_ty) :
    ∀ (n : Nat) (st : run_state),
      ∀ t ∈ (SchedulerRun_upto w n st).sched.tasks,
        ∃ t0 ∈ st.sched.tasks, t0.uid = t.uid ∧ t0.operation_func = t.operation_func ∧
          t0.interval = t.interval ∧ t0.param = t.param ∧
          TaskGetTimeToRun t0 ≤ TaskGetTimeToRun t := by
  refine SchedulerRun_upto_induction w
    (fun st st3 => ∀ t ∈ st3.sched.tasks,
      ∃ t0 ∈ st.sched.tasks, t0.uid = t.uid ∧ t0.operation_func = t.operation_func ∧
        t0.interval = t.interval ∧ t0.param = t.param ∧
        TaskGetTimeToRun t0 ≤ TaskGetTimeToRun t)
    (fun st t ht => ⟨t, ht, rfl, rfl, rfl, rfl, le_refl _⟩) ?_
  intro st task rest st3 hq _ h2 t ht
  obtain ⟨t2, ht2, a, b, c, d, e⟩ := h2 t ht
  rcases SchedulerRun_body_due w st task rest t2 ht2 with h | ⟨_, h, hle, _⟩
  · exact ⟨t2, by rw [hq]; exact List.mem_cons_of_mem _ h, a, b, c, d, e⟩
  · refine ⟨task, by rw [hq]; exact List.mem_cons_self _ _, ?_, ?_, ?_, ?_, le_trans hle e⟩
    · rw [← a, h]; rfl
    · rw [← b, h]; rfl
    · rw [← c, h]; rfl
    · rw [← d, h]; rfl

/-- C16. The clock of the model is monotone: time passes in natural numbers of seconds.
First part: after an iteration of the loop of `SchedulerRun` every pending task is a
task of the rest of the queue, unchanged, or the dequeued task after NOT_DONE, with its
due time set to the clock value read after the execution, which is greater than or equal
to the due time the task had when it was dequeued (and to the previous reading of the
clock). Second part: after any number of iterations, every pending task is a task that
was pending at the start, with the same identifier, operation, interval and argument and
a due time greater than or equal to the one it had then. Third part: `SchedulerAdd`
leaves every pending task unchanged and adds at most a task due at the current time,
`SchedulerRemove` leaves the tasks it keeps unchanged, `SchedulerStop` and
`SchedulerClear` leave the queue unchanged. -/
theorem C16_due_time_monotone (w : world_ty) :
    (∀ (st : run_state) (task : task_ty) (rest : p_queue_ty),
      ∀ t ∈ (step_state (SchedulerRun_body w st task rest)).sched.tasks,
        t ∈ rest ∨
          (w.result st.iter task = oper_ret_ty.NOT_DONE ∧
            t = TaskSetTimeToRun task (step_state (SchedulerRun_body w st task rest)).now ∧
            TaskGetTimeToRun task ≤ TaskGetTimeToRun t ∧ st.now ≤ TaskGetTimeToRun t)) ∧
    (∀ (n : Nat) (st : run_state),
      ∀ t ∈ (SchedulerRun_upto w n st).sched.tasks,
        ∃ t0 ∈ st.sched.tasks, t0.uid = t.uid ∧ t0.operation_func = t.operation_func ∧
          t0.interval = t.interval ∧ t0.param = t.param ∧
          TaskGetTimeToRun t0 ≤ TaskGetTimeToRun t) ∧
    (∀ (scheduler : scheduler_ty) (operation_func interval param : Nat) (now : Int)
        (new_uid : Option ilrd_uid_ty) (alloc_ok : Bool),
      List.Sublist scheduler.tasks
          (SchedulerAdd scheduler operation_func interval param now new_uid alloc_ok).2.tasks ∧
        ∀ t ∈
          (SchedulerAdd scheduler operation_func interval param now new_uid alloc_ok).2.tasks,
          t ∈ scheduler.tasks ∨ TaskGetTimeToRun t = now) ∧
    (∀ (NDEBUG : Bool) (scheduler : scheduler_ty) (uid : ilrd_uid_ty) (status : status_ty)
        (after : scheduler_ty),
      SchedulerRemove NDEBUG scheduler uid = some (status, after) →
      List.Sublist after.tasks scheduler.tasks) ∧
    (∀ scheduler : scheduler_ty, (SchedulerStop scheduler).tasks = scheduler.tasks) ∧
    (∀ (fuel : Nat) (scheduler after : scheduler_ty),
      SchedulerClear fuel scheduler = some after → after.tasks = scheduler.tasks) := by
  refine ⟨SchedulerRun_body_due w, SchedulerRun_upto_due w, ?_, ?_, fun _ => rfl, ?_⟩
  · intro scheduler operation_func interval param now new_uid alloc_ok
    rcases SchedulerAdd_tasks scheduler operation_func interval param now new_uid alloc_ok
      with h | ⟨t, hc, h⟩
    · rw [h]
      exact ⟨List.Sublist.refl _, fun t ht => Or.inl ht⟩
    · rw [h]
      refine ⟨PqueueInsert_sublist _ _ _, ?_⟩
      intro x hx
      rcases (PqueueInsert_mem _ _ _ _).mp hx with hx | hx
      · right
        rw [hx]
        exact (TaskCreate_some _ _ _ _ _ _ hc).2.2.2.2.1
      · exact Or.inl hx
  · intro NDEBUG scheduler uid status after h
    exact (SchedulerRemove_sublist NDEBUG scheduler uid status after h).1
  · intro fuel scheduler after h
    rw [SchedulerClear_noop] at h
    simp only [Option.some.injEq] at h
    rw [h]

/-- Witness of C16: the first iteration of `w_retry` on `st_retry` reschedules `t_retry`
from 100 to 103; the task with identifier 3 is removed from `s_three`; `s_three` is
cleared. -/
theorem C16_due_time_monotone_witness :
    (∃ t0 ∈ st_retry.sched.tasks, t0.uid = (TaskSetTimeToRun t_retry 103).uid ∧
      t0.operation_func = (TaskSetTimeToRun t_retry 103).operation_func ∧
      t0.interval = (TaskSetTimeToRun t_retry 103).interval ∧
      t0.param = (TaskSetTimeToRun t_retry 103).param ∧
      TaskGetTimeToRun t0 ≤ TaskGetTimeToRun (TaskSetTimeToRun t_retry 103)) ∧
    List.Sublist s_two.tasks s_three.tasks ∧ s_three.tasks = s_three.tasks :=
  ⟨(C16_due_time_monotone w_retry).2.1 1 st_retry (TaskSetTimeToRun t_retry 103) (by decide),
    (C16_due_time_monotone w_retry).2.2.2.1 true s_three 3 status_ty.SUCCESS s_two rfl,
    (C16_due_time_monotone w_retry).2.2.2.2.2 3 s_three s_three rfl⟩

/-! ## The invariant on identifiers and the stop flag -/

theorem uid_invariant_of_sublist (scheduler after : scheduler_ty)
    (hsub : List.Sublist after.tasks scheduler.tasks) (h : uid_invariant scheduler) :
    uid_invariant after := by
  have hm : List.Sublist (pending_uids after) (pending_uids scheduler) := hsub.map TaskGetUid
  exact ⟨h.1.sublist hm, fun hb => h.2 (hm.subset hb)⟩

theorem uid_invariant_of_perm (scheduler after : scheduler_ty)
    (hperm : List.Perm (pending_uids after) (pending_uids scheduler))
    (h : uid_invariant scheduler) : uid_invariant after :=
  ⟨(List.Perm.nodup_iff hperm).mpr h.1, fun hb => h.2 (hperm.mem_iff.mp hb)⟩

theorem SchedulerAdd_uid_invariant (scheduler : scheduler_ty)
    (operation_func interval param : Nat) (now : Int) (new_uid : Option ilrd_uid_ty)
    (alloc_ok : Bool) (hinv : uid_invariant scheduler)
    (hfresh : ∀ u, new_uid = some u → u ∉ pending_uids scheduler) :
    uid_invariant
      (SchedulerAdd scheduler operation_func interval param now new_uid alloc_ok).2 := by
  rcases SchedulerAdd_tasks scheduler operation_func interval param now new_uid alloc_ok
    with h | ⟨t, hc, h⟩
  · rw [h]; exact hinv
  · rw [h]
    obtain ⟨h1, h2, _⟩ := TaskCreate_some _ _ _ _ _ _ hc
    have hp := (PqueueInsert_perm SortTasks t scheduler.tasks).map TaskGetUid
    constructor
    · refine (List.Perm.nodup_iff hp).mpr ?_
      simp only [List.map_cons, List.nodup_cons]
      exact ⟨hfresh _ h1, hinv.1⟩
    · intro hb
      have hb2 := hp.mem_iff.mp hb
      simp only [List.map_cons, List.mem_cons] at hb2
      rcases hb2 with hb2 | hb2
      · exact h2 hb2.symm
      · exact hinv.2 hb2

theorem SchedulerRun_body_uid_invariant (w : world_ty) (st : run_state) (task : task_ty)
    (rest : p_queue_ty) (hq : st.sched.tasks = task :: rest)
    (hinv : uid_invariant st.sched) :
    uid_invariant (step_state (SchedulerRun_body w st task rest)).sched := by
  obtain ⟨_, _, _, _, hcase⟩ := SchedulerRun_body_cases w st task rest
  rcases hcase with ⟨_, _, h⟩ | ⟨_, h⟩
  · refine uid_invariant_of_perm st.sched _ ?_ hinv
    have hp := (PqueueInsert_perm SortTasks
      (TaskSetTimeToRun task (wait_until_due w st task + w.lag_run st.iter)) rest).map
      TaskGetUid
    simp only [pending_uids, h, hq]
    exact hp
  · refine uid_invariant_of_sublist st.sched _ ?_ hinv
    rw [h, hq]
    exact List.sublist_cons_self _ _

theorem SchedulerRun_upto_uid_invariant (w : world_ty) :
    ∀ (n : Nat) (st : run_state), uid_invariant st.sched →
      uid_invariant (SchedulerRun_upto w n st).sched := by
  refine SchedulerRun_upto_induction w
    (fun st st3 => uid_invariant st.sched → uid_invariant st3.sched) (fun _ h => h) ?_
  intro st task rest st3 hq _ h2 h
  exact h2 (SchedulerRun_body_uid_invariant w st task rest hq h)

/-- C17. The predicate "no two pending tasks have the same identifier and no pending task
has the sentinel identifier" holds for the newly created scheduler; `SchedulerAdd`
preserves it when the identifier that the identifier service delivers is not yet
pending (an identifier that is the sentinel makes `TaskCreate` fail); every call of
`SchedulerRemove` that returns preserves it; every iteration of the loop of
`SchedulerRun` preserves it, so it holds after any number of iterations and when
`SchedulerRun` returns; `SchedulerStop` and `SchedulerClear` preserve it. -/
theorem C17_uid_invariant_preserved :
    uid_invariant SchedulerCreate ∧
    (∀ (scheduler : scheduler_ty) (operation_func interval param : Nat) (now : Int)
        (new_uid : Option ilrd_uid_ty) (alloc_ok : Bool),
      uid_invariant scheduler → (∀ u, new_uid = some u → u ∉ pending_uids scheduler) →
      uid_invariant
        (SchedulerAdd scheduler operation_func interval param now new_uid alloc_ok).2) ∧
    (∀ (NDEBUG : Bool) (scheduler : scheduler_ty) (uid : ilrd_uid_ty) (status : status_ty)
        (after : scheduler_ty),
      uid_invariant scheduler →
      SchedulerRemove NDEBUG scheduler uid = some (status, after) → uid_invariant after) ∧
    (∀ (w : world_ty) (n : Nat) (st : run_state), uid_invariant st.sched →
      uid_invariant (SchedulerRun_upto w n st).sched) ∧
    (∀ (w : world_ty) (fuel : Nat) (scheduler : scheduler_ty) (now : Int)
        (status : run_status_ty) (st1 : run_state),
      uid_invariant scheduler → SchedulerRun w fuel scheduler now = some (status, st1) →
      uid_invariant st1.sched) ∧
    (∀ scheduler : scheduler_ty, uid_invariant scheduler →
      uid_invariant (SchedulerStop scheduler)) ∧
    (∀ (fuel : Nat) (scheduler after : scheduler_ty), uid_invariant scheduler →
      SchedulerClear fuel scheduler = some after → uid_invariant after) := by
  refine ⟨by decide, SchedulerAdd_uid_invariant, ?_, SchedulerRun_upto_uid_invariant, ?_,
    fun _ h => h, ?_⟩
  · intro NDEBUG scheduler uid status after hinv h
    exact uid_invariant_of_sublist scheduler after
      (SchedulerRemove_sublist NDEBUG scheduler uid status after h).1 hinv
  · intro w fuel scheduler now status st1 hinv h
    have hp := SchedulerRun_loop_upto w fuel _ status st1 h
    rw [← hp]
    exact SchedulerRun_upto_uid_invariant w fuel _ hinv
  · intro fuel scheduler after hinv h
    rw [SchedulerClear_noop] at h
    simp only [Option.some.injEq] at h
    rw [← h]
    exact hinv

/-- Witness of C17: a fourth task is added to `s_three`; the task with identifier 3 is
removed from it; it is run in `w_second_fails`; it is stopped; it is cleared. -/
theorem C17_uid_invariant_preserved_witness :
    uid_invariant (SchedulerAdd s_three 9 5 8 200 (some 4) true).2 ∧
    uid_invariant s_two ∧
    uid_invariant (SchedulerRun_upto w_second_fails 1 (run_start s_three 100)).sched ∧
    uid_invariant st_three_failed.sched ∧
    uid_invariant (SchedulerStop s_three) ∧
    uid_invariant s_three :=
  ⟨C17_uid_invariant_preserved.2.1 s_three 9 5 8 200 (some 4) true (by decide) (by decide),
    C17_uid_invariant_preserved.2.2.1 true s_three 3 status_ty.SUCCESS s_two (by decide) rfl,
    C17_uid_invariant_preserved.2.2.2.1 w_second_fails 1 (run_start s_three 100) (by decide),
    C17_uid_invariant_preserved.2.2.2.2.1 w_second_fails 3 s_three 100
      run_status_ty.FUNC_FAILURE st_three_failed (by decide) rfl,
    C17_uid_invariant_preserved.2.2.2.2.2.1 s_three (by decide),
    C17_uid_invariant_preserved.2.2.2.2.2.2 3 s_three s_three (by decide) rfl⟩

theorem SchedulerRun_upto_to_stop (w : world_ty) :
    ∀ (n : Nat) (st : run_state),
      (SchedulerRun_upto w n st).sched.to_stop = st.sched.to_stop := by
  refine SchedulerRun_upto_induction w
    (fun st st3 => st3.sched.to_stop = st.sched.to_stop) (fun _ => rfl) ?_
  intro st task rest st3 _ _ h2
  rw [h2]
  exact (SchedulerRun_body_cases w st task rest).2.2.1

theorem SchedulerRun_to_stop (w : world_ty) (fuel : Nat) (scheduler : scheduler_ty)
    (now : Int) (status : run_status_ty) (st1 : run_state)
    (h : SchedulerRun w fuel scheduler now = some (status, st1)) :
    st1.sched.to_stop = scheduler.to_stop := by
  have hp := SchedulerRun_loop_upto w fuel _ status st1 h
  rw [← hp]
  exact SchedulerRun_upto_to_stop w fuel _

theorem SchedulerAdd_to_stop (scheduler : scheduler_ty) (operation_func interval param : Nat)
    (now : Int) (new_uid : Option ilrd_uid_ty) (alloc_ok : Bool) :
    (SchedulerAdd scheduler operation_func interval param now new_uid alloc_ok).2.to_stop =
      scheduler.to_stop := by
  rcases SchedulerAdd_tasks scheduler operation_func interval param now new_uid alloc_ok
    with h | ⟨_, _, h⟩ <;> rw [h]

theorem call_result_to_stop (call : call_ty) (scheduler after : scheduler_ty)
    (h : call_result call scheduler = some after) :
    after.to_stop = scheduler.to_stop ∨ (call = call_ty.stop ∧ after.to_stop = true) := by
  cases call with
  | add operation_func interval param now new_uid alloc_ok =>
    simp only [call_result, Option.some.injEq] at h
    rw [← h]
    exact Or.inl (SchedulerAdd_to_stop _ _ _ _ _ _ _)
  | remove NDEBUG uid =>
    simp only [call_result, Option.map_eq_some'] at h
    obtain ⟨⟨status, s1⟩, h1, h2⟩ := h
    simp only at h2
    rw [← h2]
    exact Or.inl (SchedulerRemove_sublist NDEBUG scheduler uid status s1 h1).2
  | run w fuel now =>
    simp only [call_result, Option.map_eq_some'] at h
    obtain ⟨⟨status, st1⟩, h1, h2⟩ := h
    simp only at h2
    rw [← h2]
    exact Or.inl (SchedulerRun_to_stop w fuel scheduler now status st1 h1)
  | stop =>
    simp only [call_result, Option.some.injEq] at h
    rw [← h]
    exact Or.inr ⟨rfl, rfl⟩
  | clear fuel =>
    simp only [call_result, SchedulerClear_noop, Option.some.injEq] at h
    rw [← h]
    exact Or.inl rfl

theorem calls_result_to_stop :
    ∀ (calls : List call_ty) (scheduler after : scheduler_ty),
      scheduler.to_stop = true → calls_result calls scheduler = some after →
      after.to_stop = true := by
  intro calls
  induction calls with
  | nil =>
    intro scheduler after hs h
    simp only [calls_result, Option.some.injEq] at h
    rw [← h]; exact hs
  | cons c cs ih =>
    intro scheduler after hs h
    cases hc : call_result c scheduler with
    | none => simp [calls_result, hc] at h
    | some s1 =>
      simp only [calls_result, hc] at h
      refine ih s1 after ?_ h
      rcases call_result_to_stop c scheduler s1 hc with h1 | h1
      · rw [h1]; exact hs
      · exact h1.2

theorem SchedulerRun_stopped (w : world_ty) (fuel : Nat) (scheduler : scheduler_ty)
    (now : Int) (hs : scheduler.to_stop = true) :
    SchedulerRun w fuel scheduler now =
      some (SchedulerRun_exit (run_start scheduler now), run_start scheduler now) := by
  have hc : SchedulerRun_cond (run_start scheduler now) = false := by
    simp [SchedulerRun_cond, run_start, hs]
  exact SchedulerRun_loop_exit w fuel _ hc

/-- C18. The stop flag is false in the newly created scheduler. `SchedulerStop` sets the
flag and leaves the queue unchanged. Every call of `SchedulerAdd`, `SchedulerRemove`,
`SchedulerRun` or `SchedulerClear` that returns leaves the flag as it was. So after
`SchedulerStop` and any sequence of further calls the flag is set, and every
`SchedulerRun` then returns at once, whatever the fuel, without having executed a task
and with the scheduler unchanged. -/
theorem C18_stop_flag :
    SchedulerCreate.to_stop = false ∧
    (∀ scheduler : scheduler_ty,
      (SchedulerStop scheduler).tasks = scheduler.tasks ∧
        (SchedulerStop scheduler).to_stop = true) ∧
    (∀ (call : call_ty) (scheduler after : scheduler_ty),
      call_result call scheduler = some after →
      after.to_stop = scheduler.to_stop ∨ (call = call_ty.stop ∧ after.to_stop = true)) ∧
    (∀ (calls : List call_ty) (scheduler after : scheduler_ty),
      calls_result calls (SchedulerStop scheduler) = some after →
      after.to_stop = true ∧
        ∀ (w : world_ty) (fuel : Nat) (now : Int),
          ∃ status st, SchedulerRun w fuel after now = some (status, st) ∧
            st.trace = [] ∧ st.sched = after) := by
  refine ⟨rfl, fun _ => ⟨rfl, rfl⟩, call_result_to_stop, ?_⟩
  intro calls scheduler after h
  have hs := calls_result_to_stop calls (SchedulerStop scheduler) after rfl h
  refine ⟨hs, ?_⟩
  intro w fuel now
  exact ⟨_, _, SchedulerRun_stopped w fuel after now hs, rfl, rfl⟩

/-- Witness of C18: `SchedulerStop` on `s_three`; after it a removal, a clear and a run;
and after it an add and a removal. Each time the flag is still set and a run executes
nothing. -/
theorem C18_stop_flag_witness :
    ((SchedulerStop s_three).to_stop = s_three.to_stop ∨
      (call_ty.stop = call_ty.stop ∧ (SchedulerStop s_three).to_stop = true)) ∧
    ((SchedulerStop s_two).to_stop = true ∧
      ∀ (w : world_ty) (fuel : Nat) (now : Int),
        ∃ status st, SchedulerRun w fuel (SchedulerStop s_two) now = some (status, st) ∧
          st.trace = [] ∧ st.sched = SchedulerStop s_two) ∧
    ((SchedulerStop s_three).to_stop = true ∧
      ∀ (w : world_ty) (fuel : Nat) (now : Int),
        ∃ status st, SchedulerRun w fuel (SchedulerStop s_three) now = some (status, st) ∧
          st.trace = [] ∧ st.sched = SchedulerStop s_three) :=
  ⟨C18_stop_flag.2.2.1 call_ty.stop s_three (SchedulerStop s_three) rfl,
    C18_stop_flag.2.2.2 [call_ty.remove true 3, call_ty.clear 4, call_ty.run w_done 3 10]
      s_three (SchedulerStop s_two) rfl,
    C18_stop_flag.2.2.2 [call_ty.add 1 2 3 50 (some 9) true, call_ty.remove true 9]
      s_three (SchedulerStop s_three) rfl⟩

/-! ## Number of pending tasks and of executions -/

theorem not_done_count_append (l : List exec_ty) (e : exec_ty) :
    not_done_count (l ++ [e]) =
      not_done_count l + (if e.ret = oper_ret_ty.NOT_DONE then 1 else 0) := by
  unfold not_done_count
  by_cases h : e.ret = oper_ret_ty.NOT_DONE
  · simp [List.filter_append, List.filter_cons, h]
  · simp [List.filter_append, List.filter_cons, h]

theorem SchedulerRun_upto_size (w : world_ty) :
    ∀ (n : Nat) (st : run_state),
      SchedulerSize (SchedulerRun_upto w n st).sched ≤ SchedulerSize st.sched := by
  refine SchedulerRun_upto_induction w
    (fun st st3 => SchedulerSize st3.sched ≤ SchedulerSize st.sched) (fun _ => le_refl _) ?_
  intro st task rest st3 hq _ h2
  refine le_trans h2 ?_
  obtain ⟨_, _, _, _, hcase⟩ := SchedulerRun_body_cases w st task rest
  rcases hcase with ⟨_, _, h⟩ | ⟨_, h⟩
  · simp [SchedulerSize, PqueueSize, h, hq, PqueueInsert_length]
  · simp [SchedulerSize, PqueueSize, h, hq]

theorem SchedulerRun_upto_executions (w : world_ty) :
    ∀ (n : Nat) (st : run_state),
      (SchedulerRun_upto w n st).trace.length + not_done_count st.trace +
          SchedulerSize (SchedulerRun_upto w n st).sched ≤
        st.trace.length + SchedulerSize st.sched +
          not_done_count (SchedulerRun_upto w n st).trace := by
  refine SchedulerRun_upto_induction w
    (fun st st3 => st3.trace.length + not_done_count st.trace + SchedulerSize st3.sched ≤
      st.trace.length + SchedulerSize st.sched + not_done_count st3.trace)
    (fun _ => by omega) ?_
  intro st task rest st3 hq _ h2
  obtain ⟨htr, _, _, _, hcase⟩ := SchedulerRun_body_cases w st task rest
  rw [htr, not_done_count_append] at h2
  simp only [List.length_append, List.length_singleton] at h2
  have hsize : SchedulerSize st.sched = rest.length + 1 := by
    simp [SchedulerSize, PqueueSize, hq]
  rcases hcase with ⟨hr, _, h⟩ | ⟨_, h⟩
  · have h3 : SchedulerSize (step_state (SchedulerRun_body w st task rest)).sched =
        rest.length + 1 := by
      simp [SchedulerSize, PqueueSize, h, PqueueInsert_length]
    rw [h3] at h2
    simp only [exec_of, hr, if_true] at h2
    omega
  · have h3 : SchedulerSize (step_state (SchedulerRun_body w st task rest)).sched =
        rest.length := by
      simp [SchedulerSize, PqueueSize, h]
    rw [h3] at h2
    split at h2 <;> omega

theorem SchedulerRun_loop_terminates (w : world_ty) :
    ∀ (q : p_queue_ty) (st : run_state) (fuel : Nat), st.sched.tasks = q →
      (∀ n, ∀ t ∈ q, w.result n t ≠ oper_ret_ty.NOT_DONE) → q.length ≤ fuel →
      ∃ status st1, SchedulerRun_loop w fuel st = some (status, st1) ∧
        st1.trace.length ≤ st.trace.length + q.length := by
  intro q
  induction q with
  | nil =>
    intro st fuel hq _ _
    have hc : SchedulerRun_cond st = false := by
      cases h : SchedulerRun_cond st
      · rfl
      · rw [SchedulerRun_cond_eq] at h; exact absurd hq h.1
    exact ⟨_, _, SchedulerRun_loop_exit w fuel st hc, by simp⟩
  | cons t q ih =>
    intro st fuel hq hd hf
    cases hc : SchedulerRun_cond st with
    | false => exact ⟨_, _, SchedulerRun_loop_exit w fuel st hc, by simp⟩
    | true =>
      obtain ⟨_, hs⟩ := (SchedulerRun_cond_eq st).mp hc
      cases fuel with
      | zero => simp at hf
      | succ fuel =>
        rw [SchedulerRun_loop_step w fuel st t q hq hs]
        cases hr : w.result st.iter t with
        | NOT_DONE => exact absurd hr (hd _ t (List.mem_cons_self _ _))
        | FAILURE =>
          rw [SchedulerRun_body_failure w st t q hr]
          exact ⟨_, _, rfl, by simp⟩
        | DONE =>
          rw [SchedulerRun_body_done w st t q hr]
          obtain ⟨status, st1, h1, h2⟩ := ih
            { sched := { st.sched with tasks := q },
              now := wait_until_due w st t + w.lag_run st.iter, iter := st.iter + 1,
              trace := st.trace ++ [exec_of w st t q] } fuel rfl
            (fun n x hx => hd n x (List.mem_cons_of_mem _ hx)) (by simpa using hf)
          refine ⟨status, st1, h1, ?_⟩
          simp only [List.length_append, List.length_singleton, List.length_cons,
            List.length_nil] at h2 ⊢
          omega

/-- C19. First and second part: after any number of iterations of the loop of
`SchedulerRun`, and when `SchedulerRun` returns, there are at most as many pending tasks
as there were at the call. Third part: an iteration whose operation does not return
NOT_DONE leaves one pending task less. Fourth part: when no pending task has an
operation that returns NOT_DONE, `SchedulerRun` with fuel for one iteration per pending
task returns, after at most as many executions as tasks were pending at the call. Fifth
and sixth part: after any number of iterations, and when `SchedulerRun` returns, the
number of executions is at most the number of tasks pending at the call plus the number
of executions that returned NOT_DONE. -/
theorem C19_run_bounds (w : world_ty) :
    (∀ (n : Nat) (st : run_state),
      SchedulerSize (SchedulerRun_upto w n st).sched ≤ SchedulerSize st.sched) ∧
    (∀ (fuel : Nat) (scheduler : scheduler_ty) (now : Int) (status : run_status_ty)
        (st1 : run_state),
      SchedulerRun w fuel scheduler now = some (status, st1) →
      SchedulerSize st1.sched ≤ SchedulerSize scheduler) ∧
    (∀ (st : run_state) (task : task_ty) (rest : p_queue_ty),
      st.sched.tasks = task :: rest → w.result st.iter task ≠ oper_ret_ty.NOT_DONE →
      SchedulerSize (step_state (SchedulerRun_body w st task rest)).sched + 1 =
        SchedulerSize st.sched) ∧
    (∀ (fuel : Nat) (scheduler : scheduler_ty) (now : Int),
      (∀ n, ∀ t ∈ scheduler.tasks, w.result n t ≠ oper_ret_ty.NOT_DONE) →
      SchedulerSize scheduler ≤ fuel →
      ∃ status st1, SchedulerRun w fuel scheduler now = some (status, st1) ∧
        st1.trace.length ≤ SchedulerSize scheduler) ∧
    (∀ (n : Nat) (scheduler : scheduler_ty) (now : Int),
      (SchedulerRun_upto w n (run_start scheduler now)).trace.length ≤
        SchedulerSize scheduler +
          not_done_count (SchedulerRun_upto w n (run_start scheduler now)).trace) ∧
    (∀ (fuel : Nat) (scheduler : scheduler_ty) (now : Int) (status : run_status_ty)
        (st1 : run_state),
      SchedulerRun w fuel scheduler now = some (status, st1) →
      st1.trace.length ≤ SchedulerSize scheduler + not_done_count st1.trace) := by
  have hex : ∀ (n : Nat) (scheduler : scheduler_ty) (now : Int),
      (SchedulerRun_upto w n (run_start scheduler now)).trace.length ≤
        SchedulerSize scheduler +
          not_done_count (SchedulerRun_upto w n (run_start scheduler now)).trace := by
    intro n scheduler now
    have h := SchedulerRun_upto_executions w n (run_start scheduler now)
    simp only [run_start, List.length_nil, not_done_count, List.filter_nil] at h
    simp only [run_start, not_done_count]
    omega
  refine ⟨SchedulerRun_upto_size w, ?_, ?_, ?_, hex, ?_⟩
  · intro fuel scheduler now status st1 h
    have hp := SchedulerRun_loop_upto w fuel _ status st1 h
    rw [← hp]
    exact SchedulerRun_upto_size w fuel _
  · intro st task rest hq hr
    obtain ⟨_, _, _, _, hcase⟩ := SchedulerRun_body_cases w st task rest
    rcases hcase with ⟨h, _, _⟩ | ⟨_, h⟩
    · exact absurd h hr
    · simp [SchedulerSize, PqueueSize, h, hq]
  · intro fuel scheduler now hd hf
    obtain ⟨status, st1, h1, h2⟩ := SchedulerRun_loop_terminates w scheduler.tasks
      (run_start scheduler now) fuel rfl hd hf
    exact ⟨status, st1, h1, by simpa [run_start, SchedulerSize, PqueueSize] using h2⟩
  · intro fuel scheduler now status st1 h
    have hp := SchedulerRun_loop_upto w fuel _ status st1 h
    have h2 := hex fuel scheduler now
    rw [show run_start scheduler now =
      { sched := scheduler, now := now, iter := 0, trace := [] } from rfl, hp] at h2
    exact h2

/-- Witness of C19: the run of `s_two` in `w_always_retry` makes three executions, all
NOT_DONE, and leaves one task; the run of `s_three` in `w_second_fails` returns after
two executions. -/
theorem C19_run_bounds_witness :
    SchedulerSize st_two_dropped.sched ≤ SchedulerSize s_two ∧
    st_two_dropped.trace.length ≤ SchedulerSize s_two + not_done_count st_two_dropped.trace ∧
    (∃ status st1, SchedulerRun w_second_fails 3 s_three 100 = some (status, st1) ∧
      st1.trace.length ≤ SchedulerSize s_three) ∧
    SchedulerSize
        (step_state (SchedulerRun_body w_second_fails st_failing (task_at 2 101)
          [task_at 3 102])).sched + 1 =
      SchedulerSize st_failing.sched :=
  ⟨(C19_run_bounds w_always_retry).2.1 5 s_two 50 run_status_ty.SCH_FAILURE st_two_dropped
      rfl,
    (C19_run_bounds w_always_retry).2.2.2.2.2 5 s_two 50 run_status_ty.SCH_FAILURE
      st_two_dropped rfl,
    (C19_run_bounds w_second_fails).2.2.2.1 3 s_three 100
      (fun _ t _ => by unfold w_second_fails; simp only; split <;> decide) (by decide),
    (C19_run_bounds w_second_fails).2.2.1 st_failing (task_at 2 101) [task_at 3 102] rfl
      (by decide)⟩

end Scheduler
